import Mathlib

/-!
Verification of the duplicate-report projection and reconciliation engine of
`czk_tool` (`src/czk_tool/report.py`), with the summary derivation from
`src/czk_tool/cli.py`.

The Python data is shallowly embedded: JSON-like values (as produced by
`json.loads`) become the inductive type `JVal`; a parsed item dict becomes an
association list of string keys to `JVal`; Python's unbounded `int` becomes
`Int`; a finite Python `float` is represented by its exact rational value.
Filesystem state is an explicit oracle argument `fs : String → ProbeResult`
standing for `pathlib.Path(path).exists()`, which can answer true, false, or
raise `OSError`.

Python's `sorted` is a stable sort driven by `<` on the key; it is embedded as
`List.insertionSort` with the reflexive closure of the strict key order, which
is stable for the same total preorder and therefore produces the same list.
-/

/-- JSON-like values as returned by Python's `json.loads`: `None`, `bool`,
`int`, `float`, `str`, `list`, `dict`.  A Python `bool` is kept as a separate
constructor even though `bool` is a subclass of `int` in Python; the value
extractors below account for that subclassing explicitly.  A (finite) `float`
is represented by its exact rational value. -/
inductive JVal : Type where
  | null : JVal
  | bool : Bool → JVal
  | int : Int → JVal
  | float : Rat → JVal
  | str : String → JVal
  | arr : List JVal → JVal
  | obj : List (String × JVal) → JVal

/-- A parsed duplicate item: the raw dict kept by the loader
(`parsed_group.append(raw_item)`), embedded as an association list. -/
abbrev Item : Type := List (String × JVal)

/-- Python `dict.get(key)`: the value at `key`, or `None`-as-`Option.none`
when the key is absent.  Python dict keys are unique; on the association
list the first binding wins. -/
def dictGet (item : Item) (key : String) : Option JVal :=
  (item.find? (fun kv => kv.1 = key)).map (fun kv => kv.2)

/-- Python `int(x)` on a finite float truncates toward zero. -/
def pyIntOfFloat (q : Rat) : Int :=
  q.num.tdiv q.den

/-- `_path_value`: the `path` entry of an item.  The Python function raises
`ValueError` when `path` is missing, non-string or empty; the loader
guarantees a non-empty string `path` on every item it returns, so on loader
output the totalised `""` default below is never reached. -/
def path_value (item : Item) : String :=
  match dictGet item "path" with
  | some (JVal.str s) => s
  | _ => ""

/-- `_size_value`: the `size` entry coerced to an integer.
`isinstance(size, int)` is checked first and is also true for Python `bool`
(a subclass of `int`), so `True`/`False` coerce to `1`/`0`; a float is
truncated by `int(size)`; anything else falls back to `0`. -/
def size_value (item : Item) : Int :=
  match dictGet item "size" with
  | some (JVal.int n) => n
  | some (JVal.bool b) => if b then 1 else 0
  | some (JVal.float q) => pyIntOfFloat q
  | _ => 0

/-- `_modified_date_value`: the `modified_date` entry coerced to an integer,
with the same permissive rules as `_size_value`. -/
def modified_date_value (item : Item) : Int :=
  match dictGet item "modified_date" with
  | some (JVal.int n) => n
  | some (JVal.bool b) => if b then 1 else 0
  | some (JVal.float q) => pyIntOfFloat q
  | _ => 0

/-- Strict lexicographic order on lists of characters, by Unicode code point;
this is Python's `<` on `str`. -/
def lexLtChar : List Char → List Char → Bool
  | [], [] => false
  | [], _ :: _ => true
  | _ :: _, [] => false
  | a :: as, b :: bs =>
    if a.toNat < b.toNat then true
    else if b.toNat < a.toNat then false
    else lexLtChar as bs

/-- Python `<` on strings. -/
def str_lt (a b : String) : Bool :=
  lexLtChar a.data b.data

/-- Non-strict counterpart of `str_lt` (Python `<=` on strings). -/
def str_le (a b : String) : Bool :=
  !(str_lt b a)

/-- Strict lexicographic order on the sort-key tuples
`(-size, modified_date, path)` used by `_project_group_aeb`; this is Python's
`<` on 3-tuples of two ints and a string. -/
def tup_lt : Int × Int × String → Int × Int × String → Bool
  | (s1, m1, p1), (s2, m2, p2) =>
    if s1 < s2 then true
    else if s2 < s1 then false
    else if m1 < m2 then true
    else if m2 < m1 then false
    else str_lt p1 p2

/-- The `key` lambda of `_project_group_aeb`:
`(-_size_value(item), _modified_date_value(item), _path_value(item))`. -/
def sort_key (item : Item) : Int × Int × String :=
  (-(size_value item), modified_date_value item, path_value item)

/-- Strict comparison of items by `sort_key`. -/
def key_lt (a b : Item) : Bool :=
  tup_lt (sort_key a) (sort_key b)

/-- The total preorder under which Python's stable `sorted` orders the items:
`a` may stay before `b` exactly when `b` is not strictly below `a`. -/
def key_le (a b : Item) : Prop :=
  key_lt b a = false

instance : DecidableRel key_le :=
  fun a b => inferInstanceAs (Decidable (key_lt b a = false))

/-- Python `sorted(group, key=sort_key)`: a stable sort by the key order. -/
def py_sorted_items (group : List Item) : List Item :=
  List.insertionSort key_le group

/-- `_project_group_aeb`: sort the group by `(-size, modified_date, path)`,
keep the first item's path, remove the rest in sorted order.  Python raises
`IndexError` on an empty group (`ordered[0]`); `build_rows` never passes one,
and the `("", [])` branch below is that unreachable case totalised. -/
def project_group_aeb (group : List Item) : String × List String :=
  match py_sorted_items group with
  | [] => ("", [])
  | keep :: rest => (path_value keep, rest.map path_value)

/-- Outcome of one `pathlib.Path(path).exists()` probe: the path exists, the
path does not exist, or the probe raises `OSError`. -/
inductive ProbeResult : Type where
  | found : ProbeResult
  | absent : ProbeResult
  | oserror : ProbeResult
deriving DecidableEq

/-- `_exists`: probe a path, treating an `OSError` as "does not exist"
(`try: return Path(path).exists() except OSError: return False`).  Total by
construction: every probe outcome yields a boolean. -/
def path_exists (fs : String → ProbeResult) (path : String) : Bool :=
  match fs path with
  | ProbeResult.found => true
  | ProbeResult.absent => false
  | ProbeResult.oserror => false

-- Sanity checks of the embedding on concrete values.
example : path_value [("path", JVal.str "/a.jpg"), ("size", JVal.int 3)] = "/a.jpg" := by decide
example : size_value [("size", JVal.float (mkRat 7 2))] = 3 := by decide
example : size_value [("size", JVal.str "big")] = 0 := by decide
example : size_value [("size", JVal.bool true)] = 1 := by decide
example : str_lt "/a" "/b" = true := by decide
example :
    project_group_aeb
      [[("path", JVal.str "/a.jpg"), ("size", JVal.int 100), ("modified_date", JVal.int 1)],
       [("path", JVal.str "/b.jpg"), ("size", JVal.int 100), ("modified_date", JVal.int 3)]] =
    ("/a.jpg", ["/b.jpg"]) := by decide
example :
    project_group_aeb
      [[("path", JVal.str "/a.mp4"), ("size", JVal.int 2000)],
       [("path", JVal.str "/b.mp4"), ("size", JVal.int 3000)]] =
    ("/b.mp4", ["/a.mp4"]) := by decide

/-- The total preorder under which Python's `sorted` orders plain strings. -/
def str_le_p (a b : String) : Prop :=
  str_lt b a = false

instance : DecidableRel str_le_p :=
  fun a b => inferInstanceAs (Decidable (str_lt b a = false))

/-- Python `sorted(paths)` on a list of strings. -/
def py_sorted_strings (paths : List String) : List String :=
  List.insertionSort str_le_p paths

/-- `_resolve_execute_group`: compute the projected decision as fallback,
probe every path, and only when exactly one path still exists and at least
one is gone, return the survivor together with the missing paths sorted
lexicographically. -/
def resolve_execute_group (fs : String → ProbeResult) (group : List Item) :
    String × List String :=
  let projected := project_group_aeb group
  let all_paths := group.map path_value
  let existing := all_paths.filter (fun p => path_exists fs p)
  let removed := all_paths.filter (fun p => !(decide (p ∈ existing)))
  match existing, removed with
  | [keep], _ :: _ => (keep, py_sorted_strings removed)
  | _, _ => projected

/-- The processing mode: the Python `Mode = Literal["test", "execute"]`. -/
inductive Mode : Type where
  | test : Mode
  | execute : Mode
deriving DecidableEq

/-- The dataclass `DuplicateRow`.  Python ints are embedded as `Int`. -/
structure DuplicateRow : Type where
  index : Int
  file_to_keep : String
  files_to_remove : List String
  count : Int
deriving DecidableEq

/-- The per-group decision step of `build_rows`:
`_resolve_execute_group` when `mode == "execute"`, else `_project_group_aeb`. -/
def decide_group (fs : String → ProbeResult) (mode : Mode) (group : List Item) :
    String × List String :=
  match mode with
  | Mode.execute => resolve_execute_group fs group
  | Mode.test => project_group_aeb group

/-- Strict lexicographic order on pairs of an int and a string; this is
Python's `<` on the 2-tuples `(-row.count, row.file_to_keep)`. -/
def pair_lt : Int × String → Int × String → Bool
  | (c1, k1), (c2, k2) =>
    if c1 < c2 then true
    else if c2 < c1 then false
    else str_lt k1 k2

/-- The `key` lambda of the global row sort in `build_rows`:
`(-row.count, row.file_to_keep)`. -/
def row_key (row : DuplicateRow) : Int × String :=
  (-row.count, row.file_to_keep)

/-- Strict comparison of candidate rows by the global sort key. -/
def row_lt (a b : DuplicateRow) : Bool :=
  pair_lt (row_key a) (row_key b)

/-- The total preorder under which Python's stable `rows.sort` orders the
candidate rows. -/
def row_le (a b : DuplicateRow) : Prop :=
  row_lt b a = false

instance : DecidableRel row_le :=
  fun a b => inferInstanceAs (Decidable (row_lt b a = false))

/-- The final reindexing pass of `build_rows`: `enumerate(rows, start=1)`
rebuilding each row with its 1-based position. -/
def reindex_rows (start : Int) : List DuplicateRow → List DuplicateRow
  | [] => []
  | row :: rest =>
    { row with index := start } :: reindex_rows (start + 1) rest

/-- `build_rows`: one candidate row per non-empty group (empty groups are
skipped by `if not group: continue`), with `count = len(files_to_remove)`;
then a stable global sort by `(-count, file_to_keep)` and 1-based
reindexing. -/
def build_rows (fs : String → ProbeResult) (groups : List (List Item))
    (mode : Mode) : List DuplicateRow :=
  let rows := (groups.filter (fun g => !g.isEmpty)).map (fun group =>
    let decision := decide_group fs mode group
    { index := 0
      file_to_keep := decision.1
      files_to_remove := decision.2
      count := (decision.2.length : Int) : DuplicateRow })
  reindex_rows 1 (List.insertionSort row_le rows)

/-- The dataclass `MediaSummary`. -/
structure MediaSummary : Type where
  total_found : Int
  duplicate_groups : Int
  duplicates_to_remove : Int
  after_remove_estimate : Int
deriving DecidableEq

/-- `build_summary`: `duplicates_to_remove` is the sum of the rows' counts and
`after_remove_estimate = max(0, total_found - duplicates_to_remove)`. -/
def build_summary (total_found : Int) (duplicate_groups : Int)
    (rows : List DuplicateRow) : MediaSummary :=
  let duplicates_to_remove := (rows.map (fun row => row.count)).sum
  { total_found := total_found
    duplicate_groups := duplicate_groups
    duplicates_to_remove := duplicates_to_remove
    after_remove_estimate := max 0 (total_found - duplicates_to_remove) }

/-- The summary derivation of `_scan_one_media` in `cli.py`:
`build_summary(total_found=total_found, duplicate_groups=len(groups), rows=rows)`
with `rows = build_rows(groups, mode=report_mode)`. -/
def scan_summary (fs : String → ProbeResult) (total_found : Int)
    (groups : List (List Item)) (mode : Mode) : MediaSummary :=
  build_summary total_found (groups.length : Int) (build_rows fs groups mode)

-- Sanity checks on concrete values.
example :
    build_rows (fun _ => ProbeResult.absent)
      [[[("path", JVal.str "/a.jpg"), ("size", JVal.int 100), ("modified_date", JVal.int 1)],
        [("path", JVal.str "/b.jpg"), ("size", JVal.int 100), ("modified_date", JVal.int 3)]]]
      Mode.test =
    [{ index := 1, file_to_keep := "/a.jpg", files_to_remove := ["/b.jpg"], count := 1 }] := by
  decide

example :
    resolve_execute_group
      (fun p => if p = "/b.jpg" then ProbeResult.found else ProbeResult.absent)
      [[("path", JVal.str "/a.jpg"), ("size", JVal.int 9)],
       [("path", JVal.str "/b.jpg"), ("size", JVal.int 1)]] =
    ("/b.jpg", ["/a.jpg"]) := by decide

example :
    scan_summary (fun _ => ProbeResult.absent) 10
      [[[("path", JVal.str "/a.jpg")], [("path", JVal.str "/b.jpg")]]] Mode.test =
    { total_found := 10, duplicate_groups := 1, duplicates_to_remove := 1,
      after_remove_estimate := 9 } := by decide

/-! ### Order facts about the embedded Python comparisons -/

theorem char_toNat_inj {a b : Char} (h : a.toNat = b.toNat) : a = b :=
  Char.ext (UInt32.ext h)

theorem string_data_inj {a b : String} (h : a.data = b.data) : a = b := by
  cases a; cases b; simp_all

theorem lexLtChar_asymm :
    ∀ {as bs : List Char}, lexLtChar as bs = true → lexLtChar bs as = false := by
  intro as
  induction as with
  | nil =>
    intro bs h
    cases bs <;> simp [lexLtChar] at *
  | cons a as ih =>
    intro bs h
    cases bs with
    | nil => simp [lexLtChar] at h
    | cons b bs =>
      simp only [lexLtChar] at h ⊢
      split_ifs at h ⊢ with h1 h2 h3 h4 <;> first | rfl | omega | exact ih h | simp_all

theorem lexLtChar_eq_of_not_lt :
    ∀ {as bs : List Char}, lexLtChar as bs = false → lexLtChar bs as = false → as = bs := by
  intro as
  induction as with
  | nil =>
    intro bs h1 h2
    cases bs <;> simp [lexLtChar] at *
  | cons a as ih =>
    intro bs h1 h2
    cases bs with
    | nil => simp [lexLtChar] at h2
    | cons b bs =>
      simp only [lexLtChar] at h1 h2
      split_ifs at h1 h2 with h3 h4 <;> try simp_all
      have hab : a = b := char_toNat_inj (by omega)
      exact ⟨hab, ih h1 h2⟩

theorem lexLtChar_trans :
    ∀ {as bs cs : List Char}, lexLtChar as bs = true → lexLtChar bs cs = true →
      lexLtChar as cs = true := by
  intro as
  induction as with
  | nil =>
    intro bs cs h1 h2
    cases bs with
    | nil => simp [lexLtChar] at h1
    | cons b bs =>
      cases cs with
      | nil => simp [lexLtChar] at h2
      | cons c cs => simp [lexLtChar]
  | cons a as ih =>
    intro bs cs h1 h2
    cases bs with
    | nil => simp [lexLtChar] at h1
    | cons b bs =>
      cases cs with
      | nil => simp [lexLtChar] at h2
      | cons c cs =>
        simp only [lexLtChar] at h1 h2 ⊢
        split_ifs at h1 h2 ⊢ with hh <;> first | rfl | omega | skip
        all_goals (try omega)
        all_goals simp_all
        · exact ih h1 h2

theorem str_lt_asymm {a b : String} (h : str_lt a b = true) : str_lt b a = false :=
  lexLtChar_asymm h

theorem str_lt_eq_of_not_lt {a b : String} (h1 : str_lt a b = false)
    (h2 : str_lt b a = false) : a = b :=
  string_data_inj (lexLtChar_eq_of_not_lt h1 h2)

theorem str_lt_trans {a b c : String} (h1 : str_lt a b = true)
    (h2 : str_lt b c = true) : str_lt a c = true :=
  lexLtChar_trans h1 h2

theorem tup_lt_asymm {x y : Int × Int × String} (h : tup_lt x y = true) :
    tup_lt y x = false := by
  obtain ⟨s1, m1, p1⟩ := x
  obtain ⟨s2, m2, p2⟩ := y
  simp only [tup_lt] at h ⊢
  split_ifs at h ⊢ <;> first | rfl | omega | simp_all [str_lt_asymm]

theorem tup_lt_eq_of_not_lt {x y : Int × Int × String} (h1 : tup_lt x y = false)
    (h2 : tup_lt y x = false) : x = y := by
  obtain ⟨s1, m1, p1⟩ := x
  obtain ⟨s2, m2, p2⟩ := y
  simp only [tup_lt] at h1 h2
  split_ifs at h1 h2 <;> try simp_all
  have : p1 = p2 := str_lt_eq_of_not_lt h1 h2
  constructor
  · omega
  constructor
  · omega
  · exact this

theorem tup_lt_trans {x y z : Int × Int × String} (h1 : tup_lt x y = true)
    (h2 : tup_lt y z = true) : tup_lt x z = true := by
  obtain ⟨s1, m1, p1⟩ := x
  obtain ⟨s2, m2, p2⟩ := y
  obtain ⟨s3, m3, p3⟩ := z
  simp only [tup_lt] at h1 h2 ⊢
  split_ifs at h1 h2 ⊢ <;> first | rfl | omega | simp_all
  exact str_lt_trans h1 h2

theorem pair_lt_asymm {x y : Int × String} (h : pair_lt x y = true) :
    pair_lt y x = false := by
  obtain ⟨c1, k1⟩ := x
  obtain ⟨c2, k2⟩ := y
  simp only [pair_lt] at h ⊢
  split_ifs at h ⊢ <;> first | rfl | omega | simp_all [str_lt_asymm]

theorem pair_lt_eq_of_not_lt {x y : Int × String} (h1 : pair_lt x y = false)
    (h2 : pair_lt y x = false) : x = y := by
  obtain ⟨c1, k1⟩ := x
  obtain ⟨c2, k2⟩ := y
  simp only [pair_lt] at h1 h2
  split_ifs at h1 h2 <;> try simp_all
  exact ⟨by omega, str_lt_eq_of_not_lt h1 h2⟩

theorem pair_lt_trans {x y z : Int × String} (h1 : pair_lt x y = true)
    (h2 : pair_lt y z = true) : pair_lt x z = true := by
  obtain ⟨c1, k1⟩ := x
  obtain ⟨c2, k2⟩ := y
  obtain ⟨c3, k3⟩ := z
  simp only [pair_lt] at h1 h2 ⊢
  split_ifs at h1 h2 ⊢ <;> first | rfl | omega | simp_all
  exact str_lt_trans h1 h2

instance : IsTotal Item key_le := by
  constructor
  intro a b
  unfold key_le
  rcases hb : key_lt b a with _ | _
  · exact Or.inl rfl
  · exact Or.inr (tup_lt_asymm hb)

instance : IsTrans Item key_le := by
  constructor
  intro a b c hab hbc
  unfold key_le at *
  by_contra hca
  rw [Bool.not_eq_false] at hca
  rcases hcb : key_lt b c with _ | _
  · have hkey : sort_key c = sort_key b := tup_lt_eq_of_not_lt hbc hcb
    unfold key_lt at hca hab
    rw [hkey, hab] at hca
    exact Bool.false_ne_true hca
  · have htr := tup_lt_trans (show tup_lt (sort_key b) (sort_key c) = true from hcb)
      (show tup_lt (sort_key c) (sort_key a) = true from hca)
    unfold key_lt at hab
    rw [hab] at htr
    exact Bool.false_ne_true htr

instance : IsTotal String str_le_p := by
  constructor
  intro a b
  unfold str_le_p
  rcases hb : str_lt b a with _ | _
  · exact Or.inl rfl
  · exact Or.inr (str_lt_asymm hb)

instance : IsTrans String str_le_p := by
  constructor
  intro a b c hab hbc
  unfold str_le_p at *
  by_contra hca
  rw [Bool.not_eq_false] at hca
  rcases hcb : str_lt b c with _ | _
  · have hkey : c = b := str_lt_eq_of_not_lt hbc hcb
    rw [hkey, hab] at hca
    exact Bool.false_ne_true hca
  · have htr := str_lt_trans hcb hca
    rw [hab] at htr
    exact Bool.false_ne_true htr

instance : IsTotal DuplicateRow row_le := by
  constructor
  intro a b
  unfold row_le
  rcases hb : row_lt b a with _ | _
  · exact Or.inl rfl
  · exact Or.inr (pair_lt_asymm hb)

instance : IsTrans DuplicateRow row_le := by
  constructor
  intro a b c hab hbc
  unfold row_le at *
  by_contra hca
  rw [Bool.not_eq_false] at hca
  rcases hcb : row_lt b c with _ | _
  · have hkey : row_key c = row_key b := pair_lt_eq_of_not_lt hbc hcb
    unfold row_lt at hca hab
    rw [hkey, hab] at hca
    exact Bool.false_ne_true hca
  · have htr := pair_lt_trans (show pair_lt (row_key b) (row_key c) = true from hcb)
      (show pair_lt (row_key c) (row_key a) = true from hca)
    unfold row_lt at hab
    rw [hab] at htr
    exact Bool.false_ne_true htr

/-! ### Properties of the projected per-group decision -/

theorem py_sorted_items_perm (g : List Item) : (py_sorted_items g).Perm g :=
  List.perm_insertionSort key_le g

theorem py_sorted_items_sorted (g : List Item) :
    List.Sorted key_le (py_sorted_items g) :=
  List.sorted_insertionSort key_le g

theorem py_sorted_items_two (a b : Item) :
    py_sorted_items [a, b] = if key_le a b then [a, b] else [b, a] := by
  simp [py_sorted_items, List.insertionSort, List.orderedInsert]

theorem key_le_of_size_eq_mod_lt {a b : Item}
    (hs : size_value a = size_value b)
    (hm : modified_date_value a < modified_date_value b) :
    key_le a b ∧ ¬ key_le b a := by
  constructor
  · show key_lt b a = false
    simp only [key_lt, sort_key, tup_lt]
    split_ifs <;> first | rfl | omega
  · show ¬ key_lt a b = false
    simp only [key_lt, sort_key, tup_lt]
    split_ifs <;> simp_all <;> omega

theorem key_le_of_size_eq_mod_eq_path_lt {a b : Item}
    (hs : size_value a = size_value b)
    (hm : modified_date_value a = modified_date_value b)
    (hp : str_lt (path_value a) (path_value b) = true) :
    key_le a b ∧ ¬ key_le b a := by
  constructor
  · show key_lt b a = false
    simp only [key_lt, sort_key, tup_lt]
    split_ifs <;> first | rfl | omega | exact str_lt_asymm hp
  · show ¬ key_lt a b = false
    simp only [key_lt, sort_key, tup_lt]
    split_ifs <;> simp_all

theorem project_two_of_le {a b : Item} (h : key_le a b) (h2 : ¬ key_le b a) :
    (project_group_aeb [a, b]).1 = path_value a ∧
    (project_group_aeb [b, a]).1 = path_value a := by
  constructor
  · rw [project_group_aeb, py_sorted_items_two a b, if_pos h]
  · rw [project_group_aeb, py_sorted_items_two b a, if_neg h2]

/-- C1: for every non-empty duplicate group, the projected decision sorts the
items by the key `(-size, modified_date, path)` — a permutation of the group,
sorted under the key preorder — and keeps the first item's path, removing the
rest in that same order; with equal sizes the smaller `modified_date` is kept,
and with equal size and `modified_date` the lexicographically smaller path. -/
theorem c1_projected_decision (g : List Item) (hg : g ≠ []) :
    (∃ keep rest,
      project_group_aeb g = (path_value keep, List.map path_value rest) ∧
      List.Perm (keep :: rest) g ∧
      List.Sorted key_le (keep :: rest)) ∧
    (∀ a b : Item, size_value a = size_value b →
      modified_date_value a < modified_date_value b →
      (project_group_aeb [a, b]).1 = path_value a ∧
      (project_group_aeb [b, a]).1 = path_value a) ∧
    (∀ a b : Item, size_value a = size_value b →
      modified_date_value a = modified_date_value b →
      str_lt (path_value a) (path_value b) = true →
      (project_group_aeb [a, b]).1 = path_value a ∧
      (project_group_aeb [b, a]).1 = path_value a) := by
  refine ⟨?_, ?_, ?_⟩
  · rcases hs : py_sorted_items g with _ | ⟨keep, rest⟩
    · exfalso
      have hperm := py_sorted_items_perm g
      rw [hs] at hperm
      have hlen := hperm.length_eq
      simp only [List.length_nil] at hlen
      exact hg (List.eq_nil_of_length_eq_zero hlen.symm)
    · refine ⟨keep, rest, ?_, ?_, ?_⟩
      · rw [project_group_aeb, hs]
      · rw [← hs]; exact py_sorted_items_perm g
      · rw [← hs]; exact py_sorted_items_sorted g
  · intro a b hsz hm
    obtain ⟨h1, h2⟩ := key_le_of_size_eq_mod_lt hsz hm
    exact project_two_of_le h1 h2
  · intro a b hsz hm hp
    obtain ⟨h1, h2⟩ := key_le_of_size_eq_mod_eq_path_lt hsz hm hp
    exact project_two_of_le h1 h2

/-! ### Properties of the reconciled per-group decision -/

/-- The paths of a group that the probe reports as existing
(`existing` in `_resolve_execute_group`). -/
def existing_paths (fs : String → ProbeResult) (g : List Item) : List String :=
  (g.map path_value).filter (fun p => path_exists fs p)

/-- The paths of a group that the probe reports as gone.  In the source,
`removed = [path for path in all_paths if path not in existing]`; over the
paths of the group this is exactly the filter by non-existence (see
`resolve_execute_group_eq`). -/
def removed_paths (fs : String → ProbeResult) (g : List Item) : List String :=
  (g.map path_value).filter (fun p => !(path_exists fs p))

theorem resolve_execute_group_eq (fs : String → ProbeResult) (g : List Item) :
    resolve_execute_group fs g =
      match existing_paths fs g, removed_paths fs g with
      | [keep], _ :: _ => (keep, py_sorted_strings (removed_paths fs g))
      | _, _ => project_group_aeb g := by
  have hrem :
      (g.map path_value).filter
        (fun p => !(decide (p ∈ (g.map path_value).filter (fun q => path_exists fs q)))) =
      (g.map path_value).filter (fun p => !(path_exists fs p)) := by
    apply List.filter_congr
    intro p hp
    simp [List.mem_filter, hp]
  simp only [resolve_execute_group, existing_paths, removed_paths, hrem]

theorem project_group_aeb_paths_perm (g : List Item) (hg : g ≠ []) :
    ((project_group_aeb g).1 :: (project_group_aeb g).2).Perm (g.map path_value) := by
  rcases hs : py_sorted_items g with _ | ⟨keep, rest⟩
  · exfalso
    have hperm := py_sorted_items_perm g
    rw [hs] at hperm
    have hlen := hperm.length_eq
    simp only [List.length_nil] at hlen
    exact hg (List.eq_nil_of_length_eq_zero hlen.symm)
  · have hperm := py_sorted_items_perm g
    rw [hs] at hperm
    have := hperm.map path_value
    simp only [List.map_cons] at this
    rw [project_group_aeb, hs]
    exact this

theorem existing_append_removed_perm (fs : String → ProbeResult) (g : List Item) :
    (existing_paths fs g ++ removed_paths fs g).Perm (g.map path_value) :=
  List.filter_append_perm (fun p => path_exists fs p) (g.map path_value)

theorem resolve_execute_group_paths_perm (fs : String → ProbeResult)
    (g : List Item) (hg : g ≠ []) :
    ((resolve_execute_group fs g).1 :: (resolve_execute_group fs g).2).Perm
      (g.map path_value) := by
  rw [resolve_execute_group_eq]
  rcases he : existing_paths fs g with _ | ⟨keep, ks⟩
  · exact project_group_aeb_paths_perm g hg
  · rcases ks with _ | ⟨k2, ks⟩
    · rcases hr : removed_paths fs g with _ | ⟨r, rs⟩
      · exact project_group_aeb_paths_perm g hg
      · have hsortperm : (py_sorted_strings (r :: rs)).Perm (r :: rs) :=
          List.perm_insertionSort str_le_p (r :: rs)
        have happ := existing_append_removed_perm fs g
        rw [he, hr] at happ
        simp only [List.cons_append, List.nil_append] at happ
        exact (hsortperm.cons keep).trans happ
    · exact project_group_aeb_paths_perm g hg

theorem decide_group_paths_perm (fs : String → ProbeResult) (mode : Mode)
    (g : List Item) (hg : g ≠ []) :
    ((decide_group fs mode g).1 :: (decide_group fs mode g).2).Perm
      (g.map path_value) := by
  cases mode with
  | test => exact project_group_aeb_paths_perm g hg
  | execute => exact resolve_execute_group_paths_perm fs g hg

/-- C3: in execute (reconciled) mode, exactly when one path of the group still
exists and at least one is gone, the decision keeps the survivor and removes
the missing paths sorted lexicographically; in every other situation the
decision is the projected one, unchanged. -/
theorem c3_reconciled_decision (fs : String → ProbeResult) (g : List Item)
    (_hg : g ≠ []) :
    ((existing_paths fs g).length = 1 ∧ removed_paths fs g ≠ [] →
      ∃ keep, existing_paths fs g = [keep] ∧
        resolve_execute_group fs g = (keep, py_sorted_strings (removed_paths fs g)) ∧
        (py_sorted_strings (removed_paths fs g)).Perm (removed_paths fs g) ∧
        List.Sorted str_le_p (py_sorted_strings (removed_paths fs g))) ∧
    (¬ ((existing_paths fs g).length = 1 ∧ removed_paths fs g ≠ []) →
      resolve_execute_group fs g = project_group_aeb g) := by
  constructor
  · rintro ⟨hlen, hrem⟩
    rcases he : existing_paths fs g with _ | ⟨keep, ks⟩
    · rw [he] at hlen; simp at hlen
    · rcases ks with _ | ⟨k2, ks⟩
      · refine ⟨keep, rfl, ?_, ?_, ?_⟩
        · rw [resolve_execute_group_eq, he]
          rcases hr : removed_paths fs g with _ | ⟨r, rs⟩
          · exact absurd hr hrem
          · rfl
        · exact List.perm_insertionSort str_le_p (removed_paths fs g)
        · exact List.sorted_insertionSort str_le_p (removed_paths fs g)
      · rw [he] at hlen; simp at hlen
  · intro hcond
    rw [resolve_execute_group_eq]
    rcases he : existing_paths fs g with _ | ⟨keep, ks⟩
    · rfl
    · rcases ks with _ | ⟨k2, ks⟩
      · rcases hr : removed_paths fs g with _ | ⟨r, rs⟩
        · rfl
        · exfalso
          exact hcond ⟨by rw [he]; rfl, by rw [hr]; simp⟩
      · rfl

/-! ### Row assembly: reindexing and sorting facts -/

theorem reindex_rows_length (start : Int) (rows : List DuplicateRow) :
    (reindex_rows start rows).length = rows.length := by
  induction rows generalizing start with
  | nil => rfl
  | cons r rest ih => simp [reindex_rows, ih]

theorem mem_reindex_rows {row : DuplicateRow} {start : Int}
    {rows : List DuplicateRow} (h : row ∈ reindex_rows start rows) :
    ∃ r ∈ rows, row = { r with index := row.index } := by
  induction rows generalizing start with
  | nil => simp [reindex_rows] at h
  | cons r rest ih =>
    simp only [reindex_rows, List.mem_cons] at h
    rcases h with h | h
    · exact ⟨r, List.mem_cons_self r rest, by rw [h]⟩
    · obtain ⟨s, hs, hrow⟩ := ih h
      exact ⟨s, List.mem_cons_of_mem r hs, hrow⟩

theorem reindex_rows_map_drop (start : Int) (rows : List DuplicateRow) :
    (reindex_rows start rows).map
      (fun row => (row.file_to_keep, row.files_to_remove, row.count)) =
    rows.map (fun row => (row.file_to_keep, row.files_to_remove, row.count)) := by
  induction rows generalizing start with
  | nil => rfl
  | cons r rest ih => simp [reindex_rows, ih]

theorem reindex_rows_get (start : Int) (rows : List DuplicateRow) :
    ∀ k (hk : k < (reindex_rows start rows).length),
      ((reindex_rows start rows).get ⟨k, hk⟩).index = start + (k : Int) := by
  induction rows generalizing start with
  | nil => intro k hk; simp [reindex_rows] at hk
  | cons r rest ih =>
    intro k hk
    cases k with
    | zero => simp [reindex_rows]
    | succ k =>
      have := ih (start + 1) k (by
        simpa [reindex_rows, reindex_rows_length] using Nat.lt_of_succ_lt_succ (by
          simpa [reindex_rows, reindex_rows_length] using hk))
      simp only [reindex_rows, List.get_cons_succ]
      rw [this]
      push_cast
      ring

theorem pairwise_reindex_rows {P : DuplicateRow → DuplicateRow → Prop}
    (hP : ∀ (r s : DuplicateRow) (i j : Int),
      P r s → P { r with index := i } { s with index := j }) :
    ∀ (start : Int) (rows : List DuplicateRow),
      List.Pairwise P rows → List.Pairwise P (reindex_rows start rows) := by
  intro start rows
  induction rows generalizing start with
  | nil => intro _; exact List.Pairwise.nil
  | cons r rest ih =>
    intro hpw
    rcases List.pairwise_cons.mp hpw with ⟨hhead, htail⟩
    refine List.pairwise_cons.mpr ⟨?_, ih (start + 1) htail⟩
    intro s hs
    obtain ⟨t, ht, hst⟩ := mem_reindex_rows hs
    have := hP r t start s.index (hhead t ht)
    rw [← hst] at this
    exact this

theorem row_le_imp_order {r s : DuplicateRow} (h : row_le r s) :
    s.count ≤ r.count ∧ (r.count = s.count → str_le r.file_to_keep s.file_to_keep = true) := by
  have hlt : pair_lt (row_key s) (row_key r) = false := h
  simp only [pair_lt, row_key] at hlt
  split_ifs at hlt with h1 h2
  · constructor
    · omega
    · intro hc; omega
  · constructor
    · omega
    · intro _
      simp only [str_le, hlt, Bool.not_false]

/-- The candidate row list assembled by the loop of `build_rows`, before the
global sort and reindexing. -/
def candidate_rows (fs : String → ProbeResult) (mode : Mode)
    (groups : List (List Item)) : List DuplicateRow :=
  (groups.filter (fun g => !g.isEmpty)).map (fun group =>
    let decision := decide_group fs mode group
    { index := 0
      file_to_keep := decision.1
      files_to_remove := decision.2
      count := (decision.2.length : Int) : DuplicateRow })

theorem build_rows_eq (fs : String → ProbeResult) (groups : List (List Item))
    (mode : Mode) :
    build_rows fs groups mode =
      reindex_rows 1 (List.insertionSort row_le (candidate_rows fs mode groups)) :=
  rfl

/-- C2: under distinct paths within each group, every produced row keeps a
path that is not also scheduled for removal, and keep plus removals are
exactly the paths of one input group — nothing invented, nothing dropped. -/
theorem c2_keep_remove_partition (fs : String → ProbeResult)
    (groups : List (List Item)) (mode : Mode)
    (hnd : ∀ g ∈ groups, (g.map path_value).Nodup) :
    ∀ row ∈ build_rows fs groups mode,
      row.file_to_keep ∉ row.files_to_remove ∧
      ∃ g ∈ groups, (row.file_to_keep :: row.files_to_remove).Perm
        (g.map path_value) := by
  intro row hrow
  rw [build_rows_eq] at hrow
  obtain ⟨r, hr, hfields⟩ := mem_reindex_rows hrow
  have hrcand : r ∈ candidate_rows fs mode groups :=
    (List.perm_insertionSort row_le (candidate_rows fs mode groups)).mem_iff.mp hr
  obtain ⟨g, hgf, hrg⟩ := List.mem_map.mp hrcand
  obtain ⟨hg, hge⟩ := List.mem_filter.mp hgf
  have hgne : g ≠ [] := by
    intro hnil
    rw [hnil] at hge
    simp at hge
  have hkeep : row.file_to_keep = (decide_group fs mode g).1 := by
    rw [hfields, ← hrg]
  have hrem : row.files_to_remove = (decide_group fs mode g).2 := by
    rw [hfields, ← hrg]
  have hperm : (row.file_to_keep :: row.files_to_remove).Perm (g.map path_value) := by
    rw [hkeep, hrem]
    exact decide_group_paths_perm fs mode g hgne
  refine ⟨?_, g, hg, hperm⟩
  have hnodup : (row.file_to_keep :: row.files_to_remove).Nodup :=
    (hperm.symm).nodup (hnd g hg)
  exact (List.nodup_cons.mp hnodup).1

/-- C4: `build_rows` yields one row per non-empty group (its keep/remove/count
data is a permutation of the per-group decisions), every row's `count` is the
length of its removal list, rows are globally ordered by `(-count,
file_to_keep)` — `count` non-increasing, keep-path non-decreasing within equal
counts — and `index` is the 1-based position in that order. -/
theorem c4_build_rows_shape (fs : String → ProbeResult)
    (groups : List (List Item)) (mode : Mode) :
    (build_rows fs groups mode).length =
      (groups.filter (fun g => !g.isEmpty)).length ∧
    ((build_rows fs groups mode).map
        (fun row => (row.file_to_keep, row.files_to_remove, row.count))).Perm
      ((groups.filter (fun g => !g.isEmpty)).map (fun g =>
        ((decide_group fs mode g).1, (decide_group fs mode g).2,
          ((decide_group fs mode g).2.length : Int)))) ∧
    (∀ row ∈ build_rows fs groups mode,
      row.count = (row.files_to_remove.length : Int)) ∧
    List.Pairwise
      (fun r s => s.count ≤ r.count ∧
        (r.count = s.count → str_le r.file_to_keep s.file_to_keep = true))
      (build_rows fs groups mode) ∧
    (∀ k (hk : k < (build_rows fs groups mode).length),
      ((build_rows fs groups mode).get ⟨k, hk⟩).index = (k : Int) + 1) := by
  refine ⟨?_, ?_, ?_, ?_, ?_⟩
  · rw [build_rows_eq, reindex_rows_length]
    rw [(List.perm_insertionSort row_le (candidate_rows fs mode groups)).length_eq]
    simp [candidate_rows]
  · rw [build_rows_eq, reindex_rows_map_drop]
    have hperm := (List.perm_insertionSort row_le (candidate_rows fs mode groups)).map
      (fun row => (row.file_to_keep, row.files_to_remove, row.count))
    refine hperm.trans ?_
    rw [candidate_rows, List.map_map]
    rfl
  · intro row hrow
    rw [build_rows_eq] at hrow
    obtain ⟨r, hr, hfields⟩ := mem_reindex_rows hrow
    have hrcand : r ∈ candidate_rows fs mode groups :=
      (List.perm_insertionSort row_le (candidate_rows fs mode groups)).mem_iff.mp hr
    obtain ⟨g, _, hrg⟩ := List.mem_map.mp hrcand
    have h1 : row.count = r.count := by rw [hfields]
    have h2 : row.files_to_remove = r.files_to_remove := by rw [hfields]
    rw [h1, h2, ← hrg]
  · rw [build_rows_eq]
    apply pairwise_reindex_rows
    · intro r s i j hp
      exact hp
    · exact (List.sorted_insertionSort row_le (candidate_rows fs mode groups)).imp
        (fun h => row_le_imp_order h)
  · intro k hk
    have hget := List.get_of_eq (build_rows_eq fs groups mode) ⟨k, hk⟩
    rw [hget, reindex_rows_get 1 _ k _]
    omega

/-! ### The group loader (`load_duplicate_groups`) -/

/-- The validation failures of `load_duplicate_groups`, mirroring its
`ValueError` messages: each constructor carries the 1-based group (and item)
coordinates the message names. -/
inductive LoadError : Type where
  | topLevelNotArray : LoadError
  | groupNotArray : Nat → LoadError
  | itemNotObject : Nat → Nat → LoadError
  | itemBadPath : Nat → Nat → LoadError
deriving DecidableEq

/-- Validation of one raw group item: it must be an object whose `path` entry
is a non-empty string (`if not isinstance(path_value, str) or not path_value`).
The accepted value is the raw dict itself (`parsed_group.append(raw_item)`). -/
def load_item (gi ii : Nat) (v : JVal) : Except LoadError Item :=
  match v with
  | JVal.obj fields =>
    match dictGet fields "path" with
    | some (JVal.str s) =>
      if s = "" then Except.error (LoadError.itemBadPath gi ii) else Except.ok fields
    | _ => Except.error (LoadError.itemBadPath gi ii)
  | _ => Except.error (LoadError.itemNotObject gi ii)

/-- The inner loop of `load_duplicate_groups`:
`for item_index, raw_item in enumerate(raw_group, start=1)`. -/
def load_items (gi ii : Nat) : List JVal → Except LoadError (List Item)
  | [] => Except.ok []
  | v :: rest =>
    match load_item gi ii v with
    | Except.error e => Except.error e
    | Except.ok item =>
      match load_items gi (ii + 1) rest with
      | Except.error e => Except.error e
      | Except.ok items => Except.ok (item :: items)

/-- The outer loop of `load_duplicate_groups`:
`for index, raw_group in enumerate(raw_data, start=1)`, each group required to
be an array. -/
def load_groups (gi : Nat) : List JVal → Except LoadError (List (List Item))
  | [] => Except.ok []
  | v :: rest =>
    match v with
    | JVal.arr itemsRaw =>
      match load_items gi 1 itemsRaw with
      | Except.error e => Except.error e
      | Except.ok g =>
        match load_groups (gi + 1) rest with
        | Except.error e => Except.error e
        | Except.ok gs => Except.ok (g :: gs)
    | _ => Except.error (LoadError.groupNotArray gi)

/-- `load_duplicate_groups` applied to an already-parsed JSON value: the
top-level value must be an array of arrays of valid item objects.  The first
offense aborts the whole load (in Python, by raising `ValueError`); nothing is
returned unless the entire structure validates. -/
def load_duplicate_groups (v : JVal) : Except LoadError (List (List Item)) :=
  match v with
  | JVal.arr gs => load_groups 1 gs
  | _ => Except.error LoadError.topLevelNotArray

/-- The shape that the claim requires for one item: an object containing a
non-empty string `path`. -/
def jval_valid_item : JVal → Bool
  | JVal.obj fields =>
    match dictGet fields "path" with
    | some (JVal.str s) => !(s == "")
    | _ => false
  | _ => false

/-- The shape that the claim requires for one group: an array of valid items. -/
def jval_valid_group : JVal → Bool
  | JVal.arr items => items.all jval_valid_item
  | _ => false

/-- The shape that the claim requires for the whole report: an array of valid
groups. -/
def jval_valid_report : JVal → Bool
  | JVal.arr gs => gs.all jval_valid_group
  | _ => false

-- Loader sanity checks on concrete values.
example :
    load_duplicate_groups (JVal.arr [JVal.arr [JVal.obj [("path", JVal.str "/a")]]]) =
      Except.ok [[[("path", JVal.str "/a")]]] := rfl
example :
    load_duplicate_groups (JVal.arr [JVal.arr [], JVal.int 3]) =
      Except.error (LoadError.groupNotArray 2) := rfl
example :
    load_duplicate_groups
      (JVal.arr [JVal.arr [JVal.obj [("path", JVal.str "/a")], JVal.obj [("path", JVal.str "")]]]) =
      Except.error (LoadError.itemBadPath 1 2) := rfl
example :
    load_duplicate_groups (JVal.str "nope") =
      Except.error LoadError.topLevelNotArray := rfl
example :
    load_duplicate_groups (JVal.arr [JVal.arr [JVal.null]]) =
      Except.error (LoadError.itemNotObject 1 1) := rfl

theorem load_item_isOk (gi ii : Nat) (v : JVal) :
    (load_item gi ii v).isOk = jval_valid_item v := by
  cases v with
  | obj fields =>
    simp only [load_item, jval_valid_item]
    rcases h : dictGet fields "path" with _ | w
    · rfl
    · cases w with
      | str s =>
        by_cases hs : s = "" <;> simp [hs, Except.isOk, Except.toBool]
      | _ => rfl
  | _ => rfl

theorem load_items_isOk (gi : Nat) (vs : List JVal) :
    ∀ ii, (load_items gi ii vs).isOk = vs.all jval_valid_item := by
  induction vs with
  | nil => intro ii; rfl
  | cons v rest ih =>
    intro ii
    simp only [load_items, List.all_cons]
    rcases hv : load_item gi ii v with e | item
    · have h1 := load_item_isOk gi ii v
      rw [hv] at h1
      have hfalse : jval_valid_item v = false := by rw [← h1]; rfl
      rw [hfalse]
      rfl
    · have h1 := load_item_isOk gi ii v
      rw [hv] at h1
      have htrue : jval_valid_item v = true := by rw [← h1]; rfl
      rw [htrue]
      rcases hrest : load_items gi (ii + 1) rest with e2 | items
      · have h2 := ih (ii + 1)
        rw [hrest] at h2
        have hrf : rest.all jval_valid_item = false := by rw [← h2]; rfl
        rw [hrf]
        rfl
      · have h2 := ih (ii + 1)
        rw [hrest] at h2
        have hrt : rest.all jval_valid_item = true := by rw [← h2]; rfl
        rw [hrt]
        rfl

theorem load_groups_isOk (vs : List JVal) :
    ∀ gi, (load_groups gi vs).isOk = vs.all jval_valid_group := by
  induction vs with
  | nil => intro gi; rfl
  | cons v rest ih =>
    intro gi
    cases v with
    | arr itemsRaw =>
      simp only [load_groups, List.all_cons]
      rcases hi : load_items gi 1 itemsRaw with e | g
      · have h1 := load_items_isOk gi itemsRaw 1
        rw [hi] at h1
        have hf : itemsRaw.all jval_valid_item = false := by rw [← h1]; rfl
        have hg : jval_valid_group (JVal.arr itemsRaw) = false := by
          simp only [jval_valid_group, hf]
        rw [hg]
        rfl
      · have h1 := load_items_isOk gi itemsRaw 1
        rw [hi] at h1
        have ht : itemsRaw.all jval_valid_item = true := by rw [← h1]; rfl
        have hg : jval_valid_group (JVal.arr itemsRaw) = true := by
          simp only [jval_valid_group, ht]
        rw [hg]
        rcases hrest : load_groups (gi + 1) rest with e2 | gs
        · have h2 := ih (gi + 1)
          rw [hrest] at h2
          have hrf : rest.all jval_valid_group = false := by rw [← h2]; rfl
          rw [hrf]
          rfl
        · have h2 := ih (gi + 1)
          rw [hrest] at h2
          have hrt : rest.all jval_valid_group = true := by rw [← h2]; rfl
          rw [hrt]
          rfl
    | null => rfl
    | bool b => rfl
    | int n => rfl
    | float q => rfl
    | str s => rfl
    | obj fields => rfl

theorem load_item_ok_shape {gi ii : Nat} {v : JVal} {item : Item}
    (h : load_item gi ii v = Except.ok item) : v = JVal.obj item := by
  cases v with
  | obj fields =>
    simp only [load_item] at h
    split at h
    · split at h
      · exact Except.noConfusion h
      · injection h with h2
        rw [h2]
    · exact Except.noConfusion h
  | null => exact Except.noConfusion h
  | bool b => exact Except.noConfusion h
  | int n => exact Except.noConfusion h
  | float q => exact Except.noConfusion h
  | str s => exact Except.noConfusion h
  | arr l => exact Except.noConfusion h

theorem load_items_ok_shape {gi : Nat} {vs : List JVal} :
    ∀ {ii : Nat} {g : List Item}, load_items gi ii vs = Except.ok g →
      List.Forall₂ (fun iv it => iv = JVal.obj it) vs g := by
  induction vs with
  | nil =>
    intro ii g h
    simp only [load_items] at h
    injection h with h2
    rw [← h2]
    exact List.Forall₂.nil
  | cons v rest ih =>
    intro ii g h
    simp only [load_items] at h
    rcases hv : load_item gi ii v with e | item <;> rw [hv] at h
    · exact Except.noConfusion h
    · rcases hrest : load_items gi (ii + 1) rest with e2 | items <;> rw [hrest] at h
      · exact Except.noConfusion h
      · injection h with h2
        rw [← h2]
        exact List.Forall₂.cons (load_item_ok_shape hv) (ih hrest)

theorem load_groups_ok_shape {vs : List JVal} :
    ∀ {gi : Nat} {gs : List (List Item)}, load_groups gi vs = Except.ok gs →
      List.Forall₂ (fun gv g => ∃ items, gv = JVal.arr items ∧
        List.Forall₂ (fun iv it => iv = JVal.obj it) items g) vs gs := by
  induction vs with
  | nil =>
    intro gi gs h
    simp only [load_groups] at h
    injection h with h2
    rw [← h2]
    exact List.Forall₂.nil
  | cons v rest ih =>
    intro gi gs h
    cases v with
    | arr itemsRaw =>
      simp only [load_groups] at h
      rcases hi : load_items gi 1 itemsRaw with e | g <;> rw [hi] at h
      · exact Except.noConfusion h
      · rcases hrest : load_groups (gi + 1) rest with e2 | gs2 <;> rw [hrest] at h
        · exact Except.noConfusion h
        · injection h with h2
          rw [← h2]
          exact List.Forall₂.cons ⟨itemsRaw, rfl, load_items_ok_shape hi⟩ (ih hrest)
    | null => exact Except.noConfusion h
    | bool b => exact Except.noConfusion h
    | int n => exact Except.noConfusion h
    | float q => exact Except.noConfusion h
    | str s => exact Except.noConfusion h
    | obj fields => exact Except.noConfusion h


theorem load_item_error {gi ii : Nat} {v : JVal} {e : LoadError}
    (h : load_item gi ii v = Except.error e) :
    (e = LoadError.itemNotObject gi ii ∧ ∀ fields, v ≠ JVal.obj fields) ∨
    (e = LoadError.itemBadPath gi ii ∧ ∃ fields, v = JVal.obj fields ∧
      jval_valid_item v = false) := by
  have hval : jval_valid_item v = false := by
    rw [← load_item_isOk gi ii v, h]
    rfl
  cases v with
  | obj fields =>
    right
    refine ⟨?_, fields, rfl, hval⟩
    simp only [load_item] at h
    split at h
    · split at h
      · injection h with h2
        exact h2.symm
      · exact Except.noConfusion h
    · injection h with h2
      exact h2.symm
  | null =>
    left
    simp only [load_item] at h
    injection h with h2
    exact ⟨h2.symm, fun fields hne => JVal.noConfusion hne⟩
  | bool b =>
    left
    simp only [load_item] at h
    injection h with h2
    exact ⟨h2.symm, fun fields hne => JVal.noConfusion hne⟩
  | int n =>
    left
    simp only [load_item] at h
    injection h with h2
    exact ⟨h2.symm, fun fields hne => JVal.noConfusion hne⟩
  | float q =>
    left
    simp only [load_item] at h
    injection h with h2
    exact ⟨h2.symm, fun fields hne => JVal.noConfusion hne⟩
  | str s =>
    left
    simp only [load_item] at h
    injection h with h2
    exact ⟨h2.symm, fun fields hne => JVal.noConfusion hne⟩
  | arr l =>
    left
    simp only [load_item] at h
    injection h with h2
    exact ⟨h2.symm, fun fields hne => JVal.noConfusion hne⟩

theorem load_items_error {gi : Nat} {vs : List JVal} :
    ∀ {ii : Nat} {e : LoadError}, load_items gi ii vs = Except.error e →
      ∃ k iv, vs.get? k = some iv ∧
        ((e = LoadError.itemNotObject gi (ii + k) ∧ ∀ fields, iv ≠ JVal.obj fields) ∨
         (e = LoadError.itemBadPath gi (ii + k) ∧ ∃ fields, iv = JVal.obj fields ∧
           jval_valid_item iv = false)) := by
  induction vs with
  | nil => intro ii e h; exact Except.noConfusion h
  | cons v rest ih =>
    intro ii e h
    simp only [load_items] at h
    rcases hv : load_item gi ii v with e1 | item <;> rw [hv] at h
    · injection h with h2
      cases h2
      refine ⟨0, v, rfl, ?_⟩
      simpa using load_item_error hv
    · rcases hrest : load_items gi (ii + 1) rest with e2 | items <;> rw [hrest] at h
      · injection h with h2
        cases h2
        obtain ⟨k, iv, hget, hcase⟩ := ih hrest
        refine ⟨k + 1, iv, hget, ?_⟩
        have hidx : ii + 1 + k = ii + (k + 1) := by omega
        rw [hidx] at hcase
        exact hcase
      · exact Except.noConfusion h

theorem load_groups_error {vs : List JVal} :
    ∀ {gi : Nat} {e : LoadError}, load_groups gi vs = Except.error e →
      ∃ k gv, vs.get? k = some gv ∧
        ((e = LoadError.groupNotArray (gi + k) ∧ ∀ items, gv ≠ JVal.arr items) ∨
         (∃ items j iv, gv = JVal.arr items ∧ items.get? j = some iv ∧
           ((e = LoadError.itemNotObject (gi + k) (1 + j) ∧ ∀ fields, iv ≠ JVal.obj fields) ∨
            (e = LoadError.itemBadPath (gi + k) (1 + j) ∧ ∃ fields, iv = JVal.obj fields ∧
              jval_valid_item iv = false)))) := by
  induction vs with
  | nil => intro gi e h; exact Except.noConfusion h
  | cons v rest ih =>
    intro gi e h
    cases v with
    | arr itemsRaw =>
      simp only [load_groups] at h
      rcases hi : load_items gi 1 itemsRaw with e1 | g <;> rw [hi] at h
      · injection h with h2
        cases h2
        obtain ⟨j, iv, hget, hcase⟩ := load_items_error hi
        exact ⟨0, JVal.arr itemsRaw, rfl,
          Or.inr ⟨itemsRaw, j, iv, rfl, hget, by simpa using hcase⟩⟩
      · rcases hrest : load_groups (gi + 1) rest with e2 | gs <;> rw [hrest] at h
        · injection h with h2
          cases h2
          obtain ⟨k, gv, hget, hcase⟩ := ih hrest
          refine ⟨k + 1, gv, hget, ?_⟩
          have hidx : gi + 1 + k = gi + (k + 1) := by omega
          rw [hidx] at hcase
          exact hcase
        · exact Except.noConfusion h
    | null =>
      simp only [load_groups] at h
      injection h with h2
      cases h2
      exact ⟨0, JVal.null, rfl, Or.inl ⟨by simp, fun items hne => JVal.noConfusion hne⟩⟩
    | bool b =>
      simp only [load_groups] at h
      injection h with h2
      cases h2
      exact ⟨0, JVal.bool b, rfl, Or.inl ⟨by simp, fun items hne => JVal.noConfusion hne⟩⟩
    | int n =>
      simp only [load_groups] at h
      injection h with h2
      cases h2
      exact ⟨0, JVal.int n, rfl, Or.inl ⟨by simp, fun items hne => JVal.noConfusion hne⟩⟩
    | float q =>
      simp only [load_groups] at h
      injection h with h2
      cases h2
      exact ⟨0, JVal.float q, rfl, Or.inl ⟨by simp, fun items hne => JVal.noConfusion hne⟩⟩
    | str s =>
      simp only [load_groups] at h
      injection h with h2
      cases h2
      exact ⟨0, JVal.str s, rfl, Or.inl ⟨by simp, fun items hne => JVal.noConfusion hne⟩⟩
    | obj fields =>
      simp only [load_groups] at h
      injection h with h2
      cases h2
      exact ⟨0, JVal.obj fields, rfl, Or.inl ⟨by simp, fun items hne => JVal.noConfusion hne⟩⟩

/-- C6: the loader accepts a parsed value exactly when it is an array of
arrays of objects each containing a non-empty string `path`; it then returns
all groups with their raw item objects; and every rejection is a single
eager error whose coordinates name a genuinely offending group/item — no
partial acceptance. -/
theorem c6_loader_validation (v : JVal) :
    ((load_duplicate_groups v).isOk = jval_valid_report v) ∧
    (∀ gs, load_duplicate_groups v = Except.ok gs →
      ∃ l, v = JVal.arr l ∧
        List.Forall₂ (fun gv g => ∃ items, gv = JVal.arr items ∧
          List.Forall₂ (fun iv it => iv = JVal.obj it) items g) l gs) ∧
    ((load_duplicate_groups v = Except.error LoadError.topLevelNotArray) ↔
      ∀ l, v ≠ JVal.arr l) ∧
    (∀ i, load_duplicate_groups v = Except.error (LoadError.groupNotArray i) →
      ∃ l gv, v = JVal.arr l ∧ l.get? (i - 1) = some gv ∧
        ∀ items, gv ≠ JVal.arr items) ∧
    (∀ i j, load_duplicate_groups v = Except.error (LoadError.itemNotObject i j) →
      ∃ l gv items iv, v = JVal.arr l ∧ l.get? (i - 1) = some gv ∧
        gv = JVal.arr items ∧ items.get? (j - 1) = some iv ∧
        ∀ fields, iv ≠ JVal.obj fields) ∧
    (∀ i j, load_duplicate_groups v = Except.error (LoadError.itemBadPath i j) →
      ∃ l gv items iv, v = JVal.arr l ∧ l.get? (i - 1) = some gv ∧
        gv = JVal.arr items ∧ items.get? (j - 1) = some iv ∧
        ∃ fields, iv = JVal.obj fields ∧ jval_valid_item iv = false) := by
  refine ⟨?_, ?_, ⟨?_, ?_⟩, ?_, ?_, ?_⟩
  · cases v with
    | arr gs => exact load_groups_isOk gs 1
    | null => rfl
    | bool b => rfl
    | int n => rfl
    | float q => rfl
    | str s => rfl
    | obj fields => rfl
  · intro gs h
    cases v with
    | arr l => exact ⟨l, rfl, load_groups_ok_shape h⟩
    | null => exact Except.noConfusion h
    | bool b => exact Except.noConfusion h
    | int n => exact Except.noConfusion h
    | float q => exact Except.noConfusion h
    | str s => exact Except.noConfusion h
    | obj fields => exact Except.noConfusion h
  · intro h l hveq
    rw [hveq] at h
    simp only [load_duplicate_groups] at h
    obtain ⟨k, gv, hget, hcase⟩ := load_groups_error h
    rcases hcase with ⟨he, _⟩ | ⟨items, j, iv, hgv, hget2, hcase2⟩
    · exact LoadError.noConfusion he
    · rcases hcase2 with ⟨he, _⟩ | ⟨he, _⟩ <;> exact LoadError.noConfusion he
  · intro hna
    cases v with
    | arr l => exact absurd rfl (hna l)
    | null => rfl
    | bool b => rfl
    | int n => rfl
    | float q => rfl
    | str s => rfl
    | obj fields => rfl
  · intro i h
    cases v with
    | arr l =>
      simp only [load_duplicate_groups] at h
      obtain ⟨k, gv, hget, hcase⟩ := load_groups_error h
      rcases hcase with ⟨he, hne⟩ | ⟨items, j, iv, hgv, hget2, hcase2⟩
      · injection he with hi2
        have hk : i - 1 = k := by omega
        rw [hk]
        exact ⟨l, gv, rfl, hget, hne⟩
      · rcases hcase2 with ⟨he, _⟩ | ⟨he, _⟩ <;> exact LoadError.noConfusion he
    | null => exact LoadError.noConfusion (Except.error.inj h)
    | bool b => exact LoadError.noConfusion (Except.error.inj h)
    | int n => exact LoadError.noConfusion (Except.error.inj h)
    | float q => exact LoadError.noConfusion (Except.error.inj h)
    | str s => exact LoadError.noConfusion (Except.error.inj h)
    | obj fields => exact LoadError.noConfusion (Except.error.inj h)
  · intro i j h
    cases v with
    | arr l =>
      simp only [load_duplicate_groups] at h
      obtain ⟨k, gv, hget, hcase⟩ := load_groups_error h
      rcases hcase with ⟨he, _⟩ | ⟨items, j2, iv, hgv, hget2, hcase2⟩
      · exact LoadError.noConfusion he
      · rcases hcase2 with ⟨he, hne⟩ | ⟨he, _⟩
        · injection he with hi2 hj2
          have hk : i - 1 = k := by omega
          have hj : j - 1 = j2 := by omega
          rw [hk, hj]
          exact ⟨l, gv, items, iv, rfl, hget, hgv, hget2, hne⟩
        · exact LoadError.noConfusion he
    | null => exact LoadError.noConfusion (Except.error.inj h)
    | bool b => exact LoadError.noConfusion (Except.error.inj h)
    | int n => exact LoadError.noConfusion (Except.error.inj h)
    | float q => exact LoadError.noConfusion (Except.error.inj h)
    | str s => exact LoadError.noConfusion (Except.error.inj h)
    | obj fields => exact LoadError.noConfusion (Except.error.inj h)
  · intro i j h
    cases v with
    | arr l =>
      simp only [load_duplicate_groups] at h
      obtain ⟨k, gv, hget, hcase⟩ := load_groups_error h
      rcases hcase with ⟨he, _⟩ | ⟨items, j2, iv, hgv, hget2, hcase2⟩
      · exact LoadError.noConfusion he
      · rcases hcase2 with ⟨he, _⟩ | ⟨he, hbad⟩
        · exact LoadError.noConfusion he
        · injection he with hi2 hj2
          have hk : i - 1 = k := by omega
          have hj : j - 1 = j2 := by omega
          rw [hk, hj]
          exact ⟨l, gv, items, iv, rfl, hget, hgv, hget2, hbad⟩
    | null => exact LoadError.noConfusion (Except.error.inj h)
    | bool b => exact LoadError.noConfusion (Except.error.inj h)
    | int n => exact LoadError.noConfusion (Except.error.inj h)
    | float q => exact LoadError.noConfusion (Except.error.inj h)
    | str s => exact LoadError.noConfusion (Except.error.inj h)
    | obj fields => exact LoadError.noConfusion (Except.error.inj h)

/-! ### Summary, coercion, probe and determinism claims -/

/-- Sample items used by concrete witnesses: two equal-size images, the first
older. -/
def sample_item_a : Item :=
  [("path", JVal.str "/a.jpg"), ("size", JVal.int 100), ("modified_date", JVal.int 1)]

/-- Second sample item, newer than `sample_item_a`. -/
def sample_item_b : Item :=
  [("path", JVal.str "/b.jpg"), ("size", JVal.int 100), ("modified_date", JVal.int 3)]

/-- A sample filesystem oracle on which only `/b.jpg` still exists. -/
def sample_fs : String → ProbeResult :=
  fun p => if p = "/b.jpg" then ProbeResult.found else ProbeResult.absent

/-- C5 (amended): the summary derived by a scan reports `total_found`
unchanged, `duplicate_groups` as the number of ALL loaded groups (empty ones
included), `duplicates_to_remove` as the sum of the rows' counts, and
`after_remove_estimate = max 0 (total_found - duplicates_to_remove)`; when no
group is empty, `duplicate_groups` coincides with the number of non-empty
groups, as the spec states. -/
theorem c5_summary_totals (fs : String → ProbeResult) (total_found : Int)
    (groups : List (List Item)) (mode : Mode) :
    (scan_summary fs total_found groups mode).total_found = total_found ∧
    (scan_summary fs total_found groups mode).duplicate_groups =
      (groups.length : Int) ∧
    (scan_summary fs total_found groups mode).duplicates_to_remove =
      ((build_rows fs groups mode).map (fun row => row.count)).sum ∧
    (scan_summary fs total_found groups mode).after_remove_estimate =
      max 0 (total_found -
        ((build_rows fs groups mode).map (fun row => row.count)).sum) ∧
    ((∀ g ∈ groups, g ≠ []) →
      (scan_summary fs total_found groups mode).duplicate_groups =
        ((groups.filter (fun g => !g.isEmpty)).length : Int)) := by
  refine ⟨rfl, rfl, rfl, rfl, ?_⟩
  intro hne
  have hfe : groups.filter (fun g => !g.isEmpty) = groups := by
    apply List.filter_eq_self.mpr
    intro g hg
    cases g with
    | nil => exact absurd rfl (hne [] hg)
    | cons x xs => rfl
  rw [hfe]
  rfl

/-- C5 counterexample: on a run whose report contains one empty group, the
summary counts that group (`duplicate_groups = len(groups) = 1`) although the
number of non-empty groups is 0, contradicting the claim as stated. -/
theorem c5_counterexample :
    (scan_summary (fun _ => ProbeResult.absent) 5 [[]] Mode.test).duplicate_groups = 1 ∧
    ((([[]] : List (List Item)).filter (fun g => !g.isEmpty)).length : Int) = 0 := by
  constructor
  · rfl
  · rfl

/-- C5 witness: a run with one non-empty group, where the last conjunct's
hypothesis (no empty groups) holds. -/
theorem c5_summary_totals_witness :
    (scan_summary (fun _ => ProbeResult.absent) 7 [[sample_item_a]] Mode.test).duplicate_groups =
      ((([[sample_item_a]] : List (List Item)).filter (fun g => !g.isEmpty)).length : Int) :=
  (c5_summary_totals (fun _ => ProbeResult.absent) 7 [[sample_item_a]] Mode.test).2.2.2.2
    (by intro g hg; simp at hg; rw [hg]; exact List.cons_ne_nil _ _)

/-- The coercion of `size` that the claim's words describe: an integer as-is,
a float truncated, anything else — booleans included — defaulting to 0.  Kept
separate from `size_value` (the code's behaviour) to compare the two. -/
def size_value_claimed (item : Item) : Int :=
  match dictGet item "size" with
  | some (JVal.int n) => n
  | some (JVal.float q) => pyIntOfFloat q
  | _ => 0

/-- C7 (amended): the metadata coercion is total — it never fails — and maps
an integer to itself, a float to its truncation toward zero, a boolean to 1/0
(Python's `bool` is a subclass of `int`, so `isinstance(size, int)` accepts
it), and every other value (missing, null, string, array, object) to 0; the
same holds for `modified_date`. -/
theorem c7_metadata_coercion (item : Item) :
    (∀ n, dictGet item "size" = some (JVal.int n) → size_value item = n) ∧
    (∀ q, dictGet item "size" = some (JVal.float q) →
      size_value item = pyIntOfFloat q) ∧
    (∀ b, dictGet item "size" = some (JVal.bool b) →
      size_value item = if b then 1 else 0) ∧
    (dictGet item "size" = none → size_value item = 0) ∧
    (dictGet item "size" = some JVal.null → size_value item = 0) ∧
    (∀ s, dictGet item "size" = some (JVal.str s) → size_value item = 0) ∧
    (∀ l, dictGet item "size" = some (JVal.arr l) → size_value item = 0) ∧
    (∀ o, dictGet item "size" = some (JVal.obj o) → size_value item = 0) ∧
    (∀ n, dictGet item "modified_date" = some (JVal.int n) →
      modified_date_value item = n) ∧
    (∀ q, dictGet item "modified_date" = some (JVal.float q) →
      modified_date_value item = pyIntOfFloat q) ∧
    (∀ b, dictGet item "modified_date" = some (JVal.bool b) →
      modified_date_value item = if b then 1 else 0) ∧
    (dictGet item "modified_date" = none → modified_date_value item = 0) ∧
    (dictGet item "modified_date" = some JVal.null → modified_date_value item = 0) ∧
    (∀ s, dictGet item "modified_date" = some (JVal.str s) →
      modified_date_value item = 0) ∧
    (∀ l, dictGet item "modified_date" = some (JVal.arr l) →
      modified_date_value item = 0) ∧
    (∀ o, dictGet item "modified_date" = some (JVal.obj o) →
      modified_date_value item = 0) := by
  refine ⟨fun n h => by simp [size_value, h],
    fun q h => by simp [size_value, h],
    fun b h => by simp [size_value, h],
    fun h => by simp [size_value, h],
    fun h => by simp [size_value, h],
    fun s h => by simp [size_value, h],
    fun l h => by simp [size_value, h],
    fun o h => by simp [size_value, h],
    fun n h => by simp [modified_date_value, h],
    fun q h => by simp [modified_date_value, h],
    fun b h => by simp [modified_date_value, h],
    fun h => by simp [modified_date_value, h],
    fun h => by simp [modified_date_value, h],
    fun s h => by simp [modified_date_value, h],
    fun l h => by simp [modified_date_value, h],
    fun o h => by simp [modified_date_value, h]⟩

/-- C7 witness: a string-valued `size` coerces to 0 without failing. -/
theorem c7_metadata_coercion_witness :
    size_value [("size", JVal.str "big")] = 0 :=
  (c7_metadata_coercion [("size", JVal.str "big")]).2.2.2.2.2.1 "big" rfl

/-- C7 counterexample: a boolean `size` is NOT defaulted to 0 as the claim's
"any other value" clause requires — Python's `bool` passes `isinstance(_,
int)`, so `True` is used as 1, which is observable in the projection: the
boolean-sized item beats a zero-sized one and gets kept. -/
theorem c7_counterexample :
    size_value [("path", JVal.str "/b"), ("size", JVal.bool true)] = 1 ∧
    size_value_claimed [("path", JVal.str "/b"), ("size", JVal.bool true)] = 0 ∧
    (project_group_aeb
      [[("path", JVal.str "/b"), ("size", JVal.bool true)],
       [("path", JVal.str "/a"), ("size", JVal.int 0)]]).1 = "/b" ∧
    (project_group_aeb
      [[("path", JVal.str "/b"), ("size", JVal.int 0)],
       [("path", JVal.str "/a"), ("size", JVal.int 0)]]).1 = "/a" := by
  refine ⟨rfl, rfl, by decide, by decide⟩

/-- C8: the existence probe is a total boolean function; an `OSError` during
the probe is reported as "does not exist" and can never abort the run, and
the probe answers true exactly when the filesystem reports the path present. -/
theorem c8_probe_error_means_absent (fs : String → ProbeResult) (p : String) :
    (fs p = ProbeResult.oserror → path_exists fs p = false) ∧
    (path_exists fs p = true ↔ fs p = ProbeResult.found) := by
  rcases hf : fs p with _ | _ | _ <;> simp [path_exists, hf]

/-- C8 witness: a probe that raises is treated as non-existing. -/
theorem c8_probe_error_means_absent_witness :
    path_exists (fun _ => ProbeResult.oserror) "/gone" = false :=
  (c8_probe_error_means_absent (fun _ => ProbeResult.oserror) "/gone").1 rfl

/-- C9: `build_rows` is a pure function of its inputs — identical groups,
mode and filesystem state give identical output — and in projected (`test`)
mode the output does not depend on the filesystem state at all. -/
theorem c9_determinism_and_projected_purity (fs1 fs2 : String → ProbeResult)
    (groups : List (List Item)) (mode : Mode) :
    build_rows fs1 groups mode = build_rows fs1 groups mode ∧
    build_rows fs1 groups Mode.test = build_rows fs2 groups Mode.test :=
  ⟨rfl, rfl⟩

/-- C1 witness: the projected decision on a concrete two-item group. -/
theorem c1_projected_decision_witness :
    (∃ keep rest,
      project_group_aeb [sample_item_a, sample_item_b] =
        (path_value keep, List.map path_value rest) ∧
      List.Perm (keep :: rest) [sample_item_a, sample_item_b] ∧
      List.Sorted key_le (keep :: rest)) ∧
    (∀ a b : Item, size_value a = size_value b →
      modified_date_value a < modified_date_value b →
      (project_group_aeb [a, b]).1 = path_value a ∧
      (project_group_aeb [b, a]).1 = path_value a) ∧
    (∀ a b : Item, size_value a = size_value b →
      modified_date_value a = modified_date_value b →
      str_lt (path_value a) (path_value b) = true →
      (project_group_aeb [a, b]).1 = path_value a ∧
      (project_group_aeb [b, a]).1 = path_value a) :=
  c1_projected_decision [sample_item_a, sample_item_b] (List.cons_ne_nil _ _)

/-- C2 counterexample: a group whose two items share one path produces a row
whose `file_to_keep` IS in `files_to_remove`, refuting the claim as stated
for groups with repeated paths. -/
theorem c2_counterexample :
    build_rows (fun _ => ProbeResult.absent)
      [[[("path", JVal.str "/a")], [("path", JVal.str "/a")]]] Mode.test =
      [{ index := 1, file_to_keep := "/a", files_to_remove := ["/a"], count := 1 }] ∧
    "/a" ∈ ["/a"] := by
  refine ⟨by decide, by decide⟩

/-- The row that `build_rows` produces for the sample two-item group; used by
the C2 witness. -/
def sample_row_ab : DuplicateRow :=
  { index := 1, file_to_keep := "/a.jpg", files_to_remove := ["/b.jpg"], count := 1 }

/-- C2 witness: a concrete row of a distinct-path group keeps a path disjoint
from its removals, and together they are exactly the group's paths. -/
theorem c2_keep_remove_partition_witness :
    sample_row_ab.file_to_keep ∉ sample_row_ab.files_to_remove ∧
    ∃ g ∈ [[sample_item_a, sample_item_b]],
      (sample_row_ab.file_to_keep :: sample_row_ab.files_to_remove).Perm
        (g.map path_value) :=
  c2_keep_remove_partition (fun _ => ProbeResult.absent)
    [[sample_item_a, sample_item_b]] Mode.test
    (by intro g hg; simp at hg; rw [hg]; decide)
    sample_row_ab
    (by decide)

/-- C3 witness: with only `/b.jpg` surviving, the reconciled decision keeps it
and removes the missing path, overriding the projected heuristic (which would
have kept `/a.jpg`, the older of two equal-size files). -/
theorem c3_reconciled_decision_witness :
    resolve_execute_group sample_fs [sample_item_a, sample_item_b] =
      ("/b.jpg", py_sorted_strings
        (removed_paths sample_fs [sample_item_a, sample_item_b])) := by
  obtain ⟨keep, hkeep, heq, -, -⟩ :=
    (c3_reconciled_decision sample_fs [sample_item_a, sample_item_b]
      (List.cons_ne_nil _ _)).1 ⟨by decide, by decide⟩
  have hev : existing_paths sample_fs [sample_item_a, sample_item_b] = ["/b.jpg"] := by
    decide
  rw [hev] at hkeep
  injection hkeep with h1 h2
  rw [heq, ← h1]

/-- C6 witness: a top-level array whose only element is not an array is
rejected with the offending 1-based group index, and that index does point at
a non-array element. -/
theorem c6_loader_validation_witness :
    load_duplicate_groups (JVal.arr [JVal.int 3]) =
      Except.error (LoadError.groupNotArray 1) ∧
    ∃ l gv, JVal.arr [JVal.int 3] = JVal.arr l ∧ l.get? 0 = some gv ∧
      ∀ items, gv ≠ JVal.arr items := by
  refine ⟨rfl, ?_⟩
  exact (c6_loader_validation (JVal.arr [JVal.int 3])).2.2.2.1 1 rfl

/-! ### CSV persistence and preview re-reading (`write_csv`,
`build_preview_rows_from_csv`) -/

/-- The decimal digit characters, for rendering Python `str(int)`. -/
def digit_char (d : Nat) : Char :=
  match d with
  | 0 => '0'
  | 1 => '1'
  | 2 => '2'
  | 3 => '3'
  | 4 => '4'
  | 5 => '5'
  | 6 => '6'
  | 7 => '7'
  | 8 => '8'
  | _ => '9'

/-- Inverse of `digit_char`: the value of a decimal digit character. -/
def char_digit (c : Char) : Option Nat :=
  if c = '0' then some 0
  else if c = '1' then some 1
  else if c = '2' then some 2
  else if c = '3' then some 3
  else if c = '4' then some 4
  else if c = '5' then some 5
  else if c = '6' then some 6
  else if c = '7' then some 7
  else if c = '8' then some 8
  else if c = '9' then some 9
  else none

/-- Little-endian decimal digits of `n`, with explicit fuel (`fuel ≥ n`
suffices) to keep the recursion structural. -/
def digits_rev_fuel : Nat → Nat → List Nat
  | 0, _ => []
  | fuel + 1, n => if n = 0 then [] else n % 10 :: digits_rev_fuel fuel (n / 10)

/-- The decimal digit string of a natural number, as Python `str` renders it. -/
def nat_repr_chars (n : Nat) : List Char :=
  if n = 0 then ['0'] else ((digits_rev_fuel n n).reverse).map digit_char

/-- Python `str(i)` on an int: an optional leading minus and decimal digits. -/
def py_str_int (i : Int) : String :=
  if i < 0 then String.mk ('-' :: nat_repr_chars i.natAbs)
  else String.mk (nat_repr_chars i.natAbs)

/-- The value of a big-endian digit list. -/
def digits_value (ds : List Nat) : Nat :=
  ds.foldl (fun acc d => 10 * acc + d) 0

/-- Parse every character as a decimal digit, or fail. -/
def parse_digit_chars : List Char → Option (List Nat)
  | [] => some []
  | c :: cs =>
    match char_digit c, parse_digit_chars cs with
    | some d, some ds => some (d :: ds)
    | _, _ => none

/-- Modelled from the stdlib behaviour used by `_parse_int`: Python
`int(text)` on a canonical decimal string — an optional sign followed by
digits.  (The full `int()` also strips whitespace and accepts underscore
separators and non-ASCII digits; none of those occur in the strings the
writer emits, and every other input is rejected here just as `int()` raises
`ValueError` there.) -/
def py_parse_int (s : String) : Option Int :=
  match s.data with
  | [] => none
  | c :: cs =>
    if c = '-' then
      if cs.isEmpty then none
      else (parse_digit_chars cs).map (fun ds => -((digits_value ds : Nat) : Int))
    else if c = '+' then
      if cs.isEmpty then none
      else (parse_digit_chars cs).map (fun ds => ((digits_value ds : Nat) : Int))
    else (parse_digit_chars (c :: cs)).map (fun ds => ((digits_value ds : Nat) : Int))

/-- `_parse_int`: parse integer text with a fallback default. -/
def parse_int_default (s : String) (dflt : Int) : Int :=
  match py_parse_int s with
  | some n => n
  | none => dflt

/-- Lower-case hexadecimal digit characters, for `\u00XX` escapes. -/
def hex_digit (n : Nat) : Char :=
  match n with
  | 0 => '0'
  | 1 => '1'
  | 2 => '2'
  | 3 => '3'
  | 4 => '4'
  | 5 => '5'
  | 6 => '6'
  | 7 => '7'
  | 8 => '8'
  | 9 => '9'
  | 10 => 'a'
  | 11 => 'b'
  | 12 => 'c'
  | 13 => 'd'
  | 14 => 'e'
  | _ => 'f'

/-- The value of a hexadecimal digit character (either case), as accepted by
`json.loads` in `\uXXXX` escapes. -/
def hex_val (c : Char) : Option Nat :=
  if c = '0' then some 0
  else if c = '1' then some 1
  else if c = '2' then some 2
  else if c = '3' then some 3
  else if c = '4' then some 4
  else if c = '5' then some 5
  else if c = '6' then some 6
  else if c = '7' then some 7
  else if c = '8' then some 8
  else if c = '9' then some 9
  else if c = 'a' then some 10
  else if c = 'b' then some 11
  else if c = 'c' then some 12
  else if c = 'd' then some 13
  else if c = 'e' then some 14
  else if c = 'f' then some 15
  else if c = 'A' then some 10
  else if c = 'B' then some 11
  else if c = 'C' then some 12
  else if c = 'D' then some 13
  else if c = 'E' then some 14
  else if c = 'F' then some 15
  else none

/-- One character escaped as `json.dumps(..., ensure_ascii=False)` escapes it:
backslash and quote are backslash-escaped, the five short control escapes are
used where they exist, other control characters become `\u00XX`, and
everything else is emitted raw. -/
def json_escape_char (c : Char) : List Char :=
  if c = '"' then ['\\', '"']
  else if c = '\\' then ['\\', '\\']
  else if c = Char.ofNat 8 then ['\\', 'b']
  else if c = Char.ofNat 12 then ['\\', 'f']
  else if c = '\n' then ['\\', 'n']
  else if c = '\r' then ['\\', 'r']
  else if c = '\t' then ['\\', 't']
  else if c.toNat < 32 then
    ['\\', 'u', '0', '0', hex_digit (c.toNat / 16), hex_digit (c.toNat % 16)]
  else [c]

/-- Escape a whole character sequence. -/
def json_escape : List Char → List Char
  | [] => []
  | c :: cs => json_escape_char c ++ json_escape cs

/-- A JSON string literal for `s`. -/
def json_quote (s : String) : List Char :=
  '"' :: json_escape s.data ++ ['"']

/-- The comma-space separated string literals of a JSON array body
(`json.dumps` uses `", "` between array items). -/
def dumps_items : List String → List Char
  | [] => []
  | [s] => json_quote s
  | s :: rest => json_quote s ++ [',', ' '] ++ dumps_items rest

/-- `json.dumps(list_of_strings, ensure_ascii=False)`. -/
def json_dumps_list (xs : List String) : String :=
  match xs with
  | [] => "[]"
  | _ => String.mk ('[' :: dumps_items xs ++ [']'])

/-- JSON whitespace. -/
def json_ws (c : Char) : Bool :=
  c = ' ' || c = '\t' || c = '\n' || c = '\r'

/-- Drop leading JSON whitespace. -/
def skip_ws : List Char → List Char
  | [] => []
  | c :: cs => if json_ws c then skip_ws cs else c :: cs

/-- Parse the body of a JSON string literal (after the opening quote),
decoding the escapes `json.loads` accepts, and rejecting raw control
characters as strict JSON does.  Returns the decoded characters and the
remaining input after the closing quote. -/
def parse_json_string (acc : List Char) : List Char → Option (List Char × List Char)
  | [] => none
  | c :: cs =>
    if c = '"' then some (acc, cs)
    else if c = '\\' then
      match cs with
      | [] => none
      | e :: cs2 =>
        if e = '"' then parse_json_string (acc ++ ['"']) cs2
        else if e = '\\' then parse_json_string (acc ++ ['\\']) cs2
        else if e = '/' then parse_json_string (acc ++ ['/']) cs2
        else if e = 'b' then parse_json_string (acc ++ [Char.ofNat 8]) cs2
        else if e = 'f' then parse_json_string (acc ++ [Char.ofNat 12]) cs2
        else if e = 'n' then parse_json_string (acc ++ ['\n']) cs2
        else if e = 'r' then parse_json_string (acc ++ ['\r']) cs2
        else if e = 't' then parse_json_string (acc ++ ['\t']) cs2
        else if e = 'u' then
          match cs2 with
          | h1 :: h2 :: h3 :: h4 :: cs3 =>
            match hex_val h1, hex_val h2, hex_val h3, hex_val h4 with
            | some a, some b, some c2, some d =>
              parse_json_string
                (acc ++ [Char.ofNat (((a * 16 + b) * 16 + c2) * 16 + d)]) cs3
            | _, _, _, _ => none
          | _ => none
        else none
    else if c.toNat < 32 then none
    else parse_json_string (acc ++ [c]) cs

/-- Parse the items of a non-empty JSON array of strings, starting after the
opening bracket (or after a comma); fuel keeps the recursion structural and
any value at least the item count suffices. -/
def parse_array_items (fuel : Nat) (cs : List Char) : Option (List String × List Char) :=
  match fuel with
  | 0 => none
  | fuel + 1 =>
    match skip_ws cs with
    | [] => none
    | c :: cs1 =>
      if c = '"' then
        match parse_json_string [] cs1 with
        | none => none
        | some (sdata, cs2) =>
          match skip_ws cs2 with
          | [] => none
          | c2 :: cs3 =>
            if c2 = ',' then
              match parse_array_items fuel cs3 with
              | some (ss, cs4) => some (String.mk sdata :: ss, cs4)
              | none => none
            else if c2 = ']' then some ([String.mk sdata], cs3)
            else none
      else none

/-- Modelled from the stdlib behaviour used by `_parse_remove_list`:
`json.loads` restricted to the sub-language the writer emits — a JSON array
of string literals (with surrounding whitespace).  Any other input yields
`none`, as `json.loads` raises or `_parse_remove_list` discards non-lists;
the one behaviour not modelled is a JSON array mixing strings with other
values, which the writer never produces. -/
def parse_json_string_list (s : String) : Option (List String) :=
  match skip_ws s.data with
  | [] => none
  | c :: cs =>
    if c = '[' then
      match skip_ws cs with
      | [] => none
      | c2 :: cs2 =>
        if c2 = ']' then if (skip_ws cs2).isEmpty then some [] else none
        else
          match parse_array_items (cs.length + 1) cs with
          | some (ss, rest) => if (skip_ws rest).isEmpty then some ss else none
          | none => none
    else none

/-- `_parse_remove_list`: a JSON remove-list column value, or `[]` when the
text does not parse as a list of strings. -/
def parse_remove_list (raw : String) : List String :=
  match parse_json_string_list raw with
  | some xs => xs
  | none => []

/-- The states of the `csv.reader` field machine (default dialect:
delimiter `,`, quote `"`, doubled-quote escaping, records ended by CR, LF or
CRLF). -/
inductive CsvState : Type where
  | startRecord : CsvState
  | startField : CsvState
  | inField : CsvState
  | inQuoted : CsvState
  | quoteInQuoted : CsvState
  | eatCrnl : CsvState
deriving DecidableEq

/-- The `csv.reader` machine: consume the input one character at a time,
accumulating the current field, the current record and the finished records.
At end of input a pending field/record is flushed (a dangling open quote is
flushed too, where strict Python would raise — the writer never produces
one). -/
def csv_run (st : CsvState) (field : List Char) (rec : List String)
    (out : List (List String)) : List Char → List (List String)
  | [] =>
    match st with
    | CsvState.startRecord => out
    | CsvState.eatCrnl => out
    | CsvState.startField => out ++ [rec ++ [String.mk field]]
    | CsvState.inField => out ++ [rec ++ [String.mk field]]
    | CsvState.inQuoted => out ++ [rec ++ [String.mk field]]
    | CsvState.quoteInQuoted => out ++ [rec ++ [String.mk field]]
  | c :: cs =>
    match st with
    | CsvState.startRecord =>
      if c = '\r' then csv_run CsvState.eatCrnl [] [] (out ++ [[]]) cs
      else if c = '\n' then csv_run CsvState.startRecord [] [] (out ++ [[]]) cs
      else if c = ',' then csv_run CsvState.startField [] [""] out cs
      else if c = '"' then csv_run CsvState.inQuoted [] [] out cs
      else csv_run CsvState.inField [c] [] out cs
    | CsvState.startField =>
      if c = '\r' then csv_run CsvState.eatCrnl [] [] (out ++ [rec ++ [""]]) cs
      else if c = '\n' then csv_run CsvState.startRecord [] [] (out ++ [rec ++ [""]]) cs
      else if c = ',' then csv_run CsvState.startField [] (rec ++ [""]) out cs
      else if c = '"' then csv_run CsvState.inQuoted [] rec out cs
      else csv_run CsvState.inField [c] rec out cs
    | CsvState.inField =>
      if c = '\r' then
        csv_run CsvState.eatCrnl [] [] (out ++ [rec ++ [String.mk field]]) cs
      else if c = '\n' then
        csv_run CsvState.startRecord [] [] (out ++ [rec ++ [String.mk field]]) cs
      else if c = ',' then
        csv_run CsvState.startField [] (rec ++ [String.mk field]) out cs
      else csv_run CsvState.inField (field ++ [c]) rec out cs
    | CsvState.inQuoted =>
      if c = '"' then csv_run CsvState.quoteInQuoted field rec out cs
      else csv_run CsvState.inQuoted (field ++ [c]) rec out cs
    | CsvState.quoteInQuoted =>
      if c = '"' then csv_run CsvState.inQuoted (field ++ ['"']) rec out cs
      else if c = '\r' then
        csv_run CsvState.eatCrnl [] [] (out ++ [rec ++ [String.mk field]]) cs
      else if c = '\n' then
        csv_run CsvState.startRecord [] [] (out ++ [rec ++ [String.mk field]]) cs
      else if c = ',' then
        csv_run CsvState.startField [] (rec ++ [String.mk field]) out cs
      else csv_run CsvState.inField (field ++ [c]) rec out cs
    | CsvState.eatCrnl =>
      if c = '\n' then csv_run CsvState.startRecord [] [] out cs
      else if c = '\r' then csv_run CsvState.eatCrnl [] [] (out ++ [[]]) cs
      else if c = ',' then csv_run CsvState.startField [] [""] out cs
      else if c = '"' then csv_run CsvState.inQuoted [] [] out cs
      else csv_run CsvState.inField [c] [] out cs

/-- `csv.reader` over a whole text. -/
def csv_parse (text : String) : List (List String) :=
  csv_run CsvState.startRecord [] [] [] text.data

/-- Whether `csv.writer` must quote a field under `QUOTE_MINIMAL`: it
contains the delimiter, the quote character, or a line-terminator
character. -/
def csv_needs_quote (cs : List Char) : Bool :=
  cs.any (fun c => c = ',' || c = '"' || c = '\r' || c = '\n')

/-- Double every quote character, as `csv.writer` escapes quotes. -/
def csv_escape_quotes : List Char → List Char
  | [] => []
  | c :: cs => (if c = '"' then ['"', '"'] else [c]) ++ csv_escape_quotes cs

/-- One encoded CSV field under `QUOTE_MINIMAL`. -/
def csv_field (s : String) : List Char :=
  if csv_needs_quote s.data then '"' :: csv_escape_quotes s.data ++ ['"']
  else s.data

/-- Comma-joined encoded fields of one record. -/
def csv_fields_enc : List String → List Char
  | [] => []
  | [f] => csv_field f
  | f :: rest => csv_field f ++ ',' :: csv_fields_enc rest

/-- One CSV line: encoded fields plus the default `\r\n` terminator. -/
def csv_line (fields : List String) : List Char :=
  csv_fields_enc fields ++ ['\r', '\n']

/-- `CSV_COLUMNS`, the fixed header of the canonical CSV schema. -/
def csv_columns : List String :=
  ["index", "file_to_keep", "files_to_remove", "count"]

/-- The field values `write_csv` emits for one row: `csv.DictWriter` renders
each value with `str()`, and `files_to_remove` is JSON-encoded
(`json.dumps(..., ensure_ascii=False)`). -/
def row_fields (row : DuplicateRow) : List String :=
  [py_str_int row.index, row.file_to_keep,
    json_dumps_list row.files_to_remove, py_str_int row.count]

/-- `write_csv`: the header line followed by one line per row. -/
def write_csv (rows : List DuplicateRow) : String :=
  String.mk (csv_line csv_columns ++
    (rows.map (fun row => csv_line (row_fields row))).join)

/-- `_read_csv_rows` composed with `csv.DictReader`: the first record is the
header, blank records are skipped, and each remaining record is keyed by the
header fields (our records always match the header length, which `List.zip`
captures). -/
def read_csv_rows (text : String) : List (List (String × String)) :=
  match csv_parse text with
  | [] => []
  | header :: rows => (rows.filter (fun r => !r.isEmpty)).map (fun r => header.zip r)

/-- Python `row.get(key, default)` on a read-back CSV row dict. -/
def row_get (row : List (String × String)) (key dflt : String) : String :=
  match row.find? (fun kv => kv.1 = key) with
  | some kv => kv.2
  | none => dflt

/-- The dataclass `DuplicatePreviewRow`. -/
structure DuplicatePreviewRow : Type where
  index : Int
  file_to_keep : String
  remove_count : Int
  first_remove : String
deriving DecidableEq

/-- `preview_row_from_duplicate_row`: compact preview shape, with the first
removal path or `"-"` when there is none. -/
def preview_row_from_duplicate_row (row : DuplicateRow) : DuplicatePreviewRow :=
  { index := row.index
    file_to_keep := row.file_to_keep
    remove_count := row.count
    first_remove :=
      match row.files_to_remove with
      | [] => "-"
      | f :: _ => f }

/-- The per-row loop of `build_preview_rows_from_csv`
(`for ordinal, row in enumerate(shown_rows, start=1)`). -/
def preview_rows_loop (ordinal : Int) :
    List (List (String × String)) → List DuplicatePreviewRow
  | [] => []
  | row :: rest =>
    let files := parse_remove_list (row_get row "files_to_remove" "[]")
    let row_index := row_get row "index" (row_get row "#" "")
    let parsed : DuplicateRow :=
      { index := parse_int_default row_index ordinal
        file_to_keep := row_get row "file_to_keep" ""
        files_to_remove := files
        count := parse_int_default (row_get row "count" "") ((files.length : Nat) : Int) }
    preview_row_from_duplicate_row parsed :: preview_rows_loop (ordinal + 1) rest

/-- `build_preview_rows_from_csv`: re-read the persisted CSV text, keep the
first `max(0, top)` rows, and return the previews with the total and shown
counts. -/
def build_preview_rows_from_csv (text : String) (top : Int) :
    List DuplicatePreviewRow × Nat × Nat :=
  let rows := read_csv_rows text
  let total_rows := rows.length
  let shown := rows.take (max 0 top).toNat
  let previews := preview_rows_loop 1 shown
  (previews, total_rows, previews.length)

-- Codec sanity checks against the behaviour of the Python stdlib.
example : py_str_int (-3) = "-3" := by decide
example : py_str_int 10 = "10" := by decide
example : py_parse_int "-3" = some (-3) := by decide
example : py_parse_int "007" = some 7 := by decide
example : py_parse_int "x" = none := by decide
example : json_dumps_list [] = "[]" := by decide
example : json_dumps_list ["a", "b"] = "[\"a\", \"b\"]" := by decide
example : parse_json_string_list "[\"a\", \"b\"]" = some ["a", "b"] := by decide
example : parse_remove_list "nope" = [] := by decide
example :
    csv_parse "index,count\r\n1,\"a\"\"b\"\r\n" = [["index", "count"], ["1", "a\"b"]] := by
  decide
example :
    read_csv_rows "a,b\r\n1,2\r\n" = [[("a", "1"), ("b", "2")]] := by decide

/-! ### Integer text round trip -/

theorem char_digit_digit_char {d : Nat} (h : d < 10) :
    char_digit (digit_char d) = some d := by
  interval_cases d <;> rfl

theorem digit_char_ne_sign {d : Nat} (h : d < 10) :
    digit_char d ≠ '-' ∧ digit_char d ≠ '+' := by
  interval_cases d <;> exact ⟨by decide, by decide⟩

/-- The value of a little-endian digit list. -/
def digits_value_rev : List Nat → Nat
  | [] => 0
  | d :: ds => d + 10 * digits_value_rev ds

theorem digits_rev_fuel_value :
    ∀ fuel n, n ≤ fuel → digits_value_rev (digits_rev_fuel fuel n) = n := by
  intro fuel
  induction fuel with
  | zero =>
    intro n h
    interval_cases n
    rfl
  | succ fuel ih =>
    intro n h
    by_cases h0 : n = 0
    · rw [h0]
      rfl
    · simp only [digits_rev_fuel, if_neg h0, digits_value_rev]
      have hdiv : n / 10 ≤ fuel := by omega
      rw [ih (n / 10) hdiv]
      omega

theorem digits_rev_fuel_lt10 :
    ∀ fuel n d, d ∈ digits_rev_fuel fuel n → d < 10 := by
  intro fuel
  induction fuel with
  | zero => intro n d hd; simp [digits_rev_fuel] at hd
  | succ fuel ih =>
    intro n d hd
    by_cases h0 : n = 0
    · rw [h0] at hd
      simp [digits_rev_fuel] at hd
    · simp only [digits_rev_fuel, if_neg h0, List.mem_cons] at hd
      rcases hd with hd | hd
      · omega
      · exact ih (n / 10) d hd

theorem digits_value_append (l : List Nat) (d : Nat) :
    digits_value (l ++ [d]) = 10 * digits_value l + d := by
  simp [digits_value, List.foldl_append]

theorem digits_value_reverse (ds : List Nat) :
    digits_value ds.reverse = digits_value_rev ds := by
  induction ds with
  | nil => rfl
  | cons d ds ih =>
    simp only [List.reverse_cons, digits_value_append, ih, digits_value_rev]
    omega

theorem parse_digit_chars_map {ds : List Nat} (h : ∀ d ∈ ds, d < 10) :
    parse_digit_chars (ds.map digit_char) = some ds := by
  induction ds with
  | nil => rfl
  | cons d ds ih =>
    simp only [List.map_cons, parse_digit_chars]
    rw [char_digit_digit_char (h d (List.mem_cons_self d ds)),
      ih (fun e he => h e (List.mem_cons_of_mem d he))]

theorem nat_repr_chars_spec (n : Nat) :
    ∃ ds, nat_repr_chars n = ds.map digit_char ∧ (∀ d ∈ ds, d < 10) ∧
      digits_value ds = n ∧ ds ≠ [] := by
  by_cases h0 : n = 0
  · exact ⟨[0], by rw [h0]; rfl, by intro d hd; simp at hd; omega,
      by rw [h0]; rfl, by simp⟩
  · refine ⟨(digits_rev_fuel n n).reverse, ?_, ?_, ?_, ?_⟩
    · rw [nat_repr_chars, if_neg h0]
    · intro d hd
      rw [List.mem_reverse] at hd
      exact digits_rev_fuel_lt10 n n d hd
    · rw [digits_value_reverse]
      exact digits_rev_fuel_value n n (Nat.le_refl n)
    · intro hnil
      have : digits_rev_fuel n n = [] := by
        have := congrArg List.reverse hnil
        simpa using this
      rcases n with _ | m
      · exact h0 rfl
      · rw [digits_rev_fuel, if_neg h0] at this
        exact List.noConfusion this

theorem py_parse_int_py_str_int (i : Int) :
    py_parse_int (py_str_int i) = some i := by
  obtain ⟨ds, hmap, hlt, hval, hne⟩ := nat_repr_chars_spec i.natAbs
  by_cases hi : i < 0
  · rw [py_str_int, if_pos hi]
    show py_parse_int (String.mk ('-' :: nat_repr_chars i.natAbs)) = some i
    have hdata : (String.mk ('-' :: nat_repr_chars i.natAbs)).data =
        '-' :: nat_repr_chars i.natAbs := rfl
    rw [py_parse_int, hdata]
    simp only [if_pos rfl]
    have hemp : (nat_repr_chars i.natAbs).isEmpty = false := by
      rw [hmap]
      cases ds with
      | nil => exact absurd rfl hne
      | cons d ds => rfl
    rw [hemp]
    simp only [Bool.false_eq_true, if_false, hmap, parse_digit_chars_map hlt]
    show some (-((digits_value ds : Nat) : Int)) = some i
    rw [hval]
    congr 1
    omega
  · rw [py_str_int, if_neg hi]
    have hdata : (String.mk (nat_repr_chars i.natAbs)).data =
        nat_repr_chars i.natAbs := rfl
    rw [py_parse_int, hdata, hmap]
    cases ds with
    | nil => exact absurd rfl hne
    | cons d ds =>
      have hd10 : d < 10 := hlt d (List.mem_cons_self d ds)
      obtain ⟨hm, hp⟩ := digit_char_ne_sign hd10
      simp only [List.map_cons, if_neg hm, if_neg hp]
      rw [show digit_char d :: ds.map digit_char = (d :: ds).map digit_char from rfl,
        parse_digit_chars_map hlt]
      show some (((digits_value (d :: ds) : Nat) : Int)) = some i
      rw [hval]
      congr 1
      omega

theorem parse_int_default_py_str_int (i dflt : Int) :
    parse_int_default (py_str_int i) dflt = i := by
  rw [parse_int_default, py_parse_int_py_str_int]

/-! ### JSON list-of-strings round trip -/

theorem hex_val_hex_digit {n : Nat} (h : n < 16) :
    hex_val (hex_digit n) = some n := by
  interval_cases n <;> rfl

theorem parse_json_string_closequote (acc rest : List Char) :
    parse_json_string acc ('"' :: rest) = some (acc, rest) := by
  rw [parse_json_string.eq_def]
  simp

theorem parse_json_string_raw {c : Char} (h1 : ¬ c = '"') (h2 : ¬ c = '\\')
    (h8 : ¬ c.toNat < 32) (acc cs : List Char) :
    parse_json_string acc (c :: cs) = parse_json_string (acc ++ [c]) cs := by
  rw [parse_json_string.eq_def]
  simp [h1, h2, h8]

theorem pjs_esc_quote (acc cs : List Char) :
    parse_json_string acc ('\\' :: '"' :: cs) =
      parse_json_string (acc ++ ['"']) cs := by
  rw [parse_json_string.eq_def]
  simp

theorem pjs_esc_backslash (acc cs : List Char) :
    parse_json_string acc ('\\' :: '\\' :: cs) =
      parse_json_string (acc ++ ['\\']) cs := by
  rw [parse_json_string.eq_def]
  simp

theorem pjs_esc_b (acc cs : List Char) :
    parse_json_string acc ('\\' :: 'b' :: cs) =
      parse_json_string (acc ++ [Char.ofNat 8]) cs := by
  rw [parse_json_string.eq_def]
  simp

theorem pjs_esc_f (acc cs : List Char) :
    parse_json_string acc ('\\' :: 'f' :: cs) =
      parse_json_string (acc ++ [Char.ofNat 12]) cs := by
  rw [parse_json_string.eq_def]
  simp

theorem pjs_esc_n (acc cs : List Char) :
    parse_json_string acc ('\\' :: 'n' :: cs) =
      parse_json_string (acc ++ ['\n']) cs := by
  rw [parse_json_string.eq_def]
  simp

theorem pjs_esc_r (acc cs : List Char) :
    parse_json_string acc ('\\' :: 'r' :: cs) =
      parse_json_string (acc ++ ['\r']) cs := by
  rw [parse_json_string.eq_def]
  simp

theorem pjs_esc_t (acc cs : List Char) :
    parse_json_string acc ('\\' :: 't' :: cs) =
      parse_json_string (acc ++ ['\t']) cs := by
  rw [parse_json_string.eq_def]
  simp

theorem pjs_esc_u {a b : Nat} (ha : a < 16) (hb : b < 16) (acc cs : List Char) :
    parse_json_string acc
        ('\\' :: 'u' :: '0' :: '0' :: hex_digit a :: hex_digit b :: cs) =
      parse_json_string (acc ++ [Char.ofNat (a * 16 + b)]) cs := by
  rw [parse_json_string.eq_def]
  simp only [hex_val_hex_digit ha, hex_val_hex_digit hb,
    show hex_val '0' = some 0 from rfl]
  have hv : ((0 * 16 + 0) * 16 + a) * 16 + b = a * 16 + b := by ring
  simp [hv]

theorem parse_json_string_round (cs : List Char) :
    ∀ acc rest,
      parse_json_string acc (json_escape cs ++ '"' :: rest) = some (acc ++ cs, rest) := by
  induction cs with
  | nil =>
    intro acc rest
    simp [json_escape, parse_json_string_closequote]
  | cons c cs ih =>
    intro acc rest
    simp only [json_escape, List.append_assoc]
    by_cases h1 : c = '"'
    · subst h1
      rw [show json_escape_char '"' = ['\\', '"'] from rfl]
      simp only [List.cons_append, List.nil_append]
      rw [pjs_esc_quote, ih]
      simp
    · by_cases h2 : c = '\\'
      · subst h2
        rw [show json_escape_char '\\' = ['\\', '\\'] from rfl]
        simp only [List.cons_append, List.nil_append]
        rw [pjs_esc_backslash, ih]
        simp
      · by_cases h3 : c = Char.ofNat 8
        · subst h3
          rw [show json_escape_char (Char.ofNat 8) = ['\\', 'b'] from rfl]
          simp only [List.cons_append, List.nil_append]
          rw [pjs_esc_b, ih]
          simp
        · by_cases h4 : c = Char.ofNat 12
          · subst h4
            rw [show json_escape_char (Char.ofNat 12) = ['\\', 'f'] from rfl]
            simp only [List.cons_append, List.nil_append]
            rw [pjs_esc_f, ih]
            simp
          · by_cases h5 : c = '\n'
            · subst h5
              rw [show json_escape_char '\n' = ['\\', 'n'] from rfl]
              simp only [List.cons_append, List.nil_append]
              rw [pjs_esc_n, ih]
              simp
            · by_cases h6 : c = '\r'
              · subst h6
                rw [show json_escape_char '\r' = ['\\', 'r'] from rfl]
                simp only [List.cons_append, List.nil_append]
                rw [pjs_esc_r, ih]
                simp
              · by_cases h7 : c = '\t'
                · subst h7
                  rw [show json_escape_char '\t' = ['\\', 't'] from rfl]
                  simp only [List.cons_append, List.nil_append]
                  rw [pjs_esc_t, ih]
                  simp
                · by_cases h8 : c.toNat < 32
                  · have henc : json_escape_char c =
                        ['\\', 'u', '0', '0', hex_digit (c.toNat / 16),
                          hex_digit (c.toNat % 16)] := by
                      simp only [json_escape_char, if_neg h1, if_neg h2, if_neg h3,
                        if_neg h4, if_neg h5, if_neg h6, if_neg h7, if_pos h8]
                    rw [henc]
                    simp only [List.cons_append, List.nil_append]
                    rw [pjs_esc_u (by omega) (by omega)]
                    have hchar : Char.ofNat (c.toNat / 16 * 16 + c.toNat % 16) = c := by
                      rw [show c.toNat / 16 * 16 + c.toNat % 16 = c.toNat by omega]
                      exact Char.ofNat_toNat c
                    rw [hchar, ih]
                    simp
                  · have henc : json_escape_char c = [c] := by
                      simp only [json_escape_char, if_neg h1, if_neg h2, if_neg h3,
                        if_neg h4, if_neg h5, if_neg h6, if_neg h7, if_neg h8]
                    rw [henc]
                    simp only [List.cons_append, List.nil_append]
                    rw [parse_json_string_raw h1 h2 h8, ih]
                    simp

theorem string_mk_data (s : String) : String.mk s.data = s := by
  cases s
  rfl

theorem skip_ws_cons_false {c : Char} {l : List Char} (h : json_ws c = false) :
    skip_ws (c :: l) = c :: l := by
  simp [skip_ws, h]

theorem skip_ws_space (l : List Char) : skip_ws (' ' :: l) = skip_ws l := rfl

theorem dumps_items_length_le (xs : List String) :
    xs.length ≤ (dumps_items xs).length := by
  induction xs with
  | nil => simp [dumps_items]
  | cons s xs ih =>
    cases xs with
    | nil => simp [dumps_items, json_quote]
    | cons t ts =>
      have : dumps_items (s :: t :: ts) =
          json_quote s ++ [',', ' '] ++ dumps_items (t :: ts) := rfl
      rw [this]
      simp only [List.length_append, List.length_cons, json_quote] at *
      omega

theorem dumps_items_head (s : String) (xs : List String) :
    ∃ tail, dumps_items (s :: xs) = '"' :: tail := by
  cases xs with
  | nil => exact ⟨json_escape s.data ++ ['"'], rfl⟩
  | cons t ts => exact ⟨json_escape s.data ++ ['"'] ++ [',', ' '] ++ dumps_items (t :: ts), by
      show json_quote s ++ [',', ' '] ++ dumps_items (t :: ts) = _
      simp [json_quote]⟩

theorem parse_array_items_round :
    ∀ (xs : List String) (fuel : Nat) (rest : List Char), xs ≠ [] →
      xs.length ≤ fuel →
      parse_array_items fuel (dumps_items xs ++ ']' :: rest) = some (xs, rest) := by
  intro xs
  induction xs with
  | nil => intro fuel rest h _; exact absurd rfl h
  | cons s xs ih =>
    intro fuel rest _ hlen
    cases fuel with
    | zero => simp at hlen
    | succ fuel =>
      cases xs with
      | nil =>
        show parse_array_items (fuel + 1)
          (json_quote s ++ ']' :: rest) = some ([s], rest)
        rw [parse_array_items.eq_def]
        simp only [json_quote, List.cons_append, List.append_assoc,
          skip_ws_cons_false (show json_ws '"' = false from rfl)]
        simp only [if_true, List.nil_append]
        rw [parse_json_string_round]
        simp only [List.nil_append,
          skip_ws_cons_false (show json_ws ']' = false from rfl)]
        rw [if_neg (show ¬ (']' = ',') by decide)]
        simp only [if_true, string_mk_data]
      | cons t ts =>
        show parse_array_items (fuel + 1)
          ((json_quote s ++ [',', ' '] ++ dumps_items (t :: ts)) ++ ']' :: rest) =
          some (s :: t :: ts, rest)
        rw [parse_array_items.eq_def]
        simp only [json_quote, List.cons_append, List.append_assoc,
          skip_ws_cons_false (show json_ws '"' = false from rfl)]
        simp only [if_true, List.nil_append]
        rw [parse_json_string_round]
        simp only [List.nil_append,
          skip_ws_cons_false (show json_ws ',' = false from rfl)]
        simp only [if_true]
        have hws : parse_array_items fuel (' ' :: (dumps_items (t :: ts) ++ ']' :: rest)) =
            parse_array_items fuel (dumps_items (t :: ts) ++ ']' :: rest) := by
          cases fuel with
          | zero => rfl
          | succ fuel2 =>
            rw [parse_array_items.eq_def, parse_array_items.eq_def]
            rfl
        rw [hws, ih fuel rest (List.cons_ne_nil t ts) (by simp at hlen ⊢; omega),
          string_mk_data]

theorem parse_json_string_list_round (xs : List String) :
    parse_json_string_list (json_dumps_list xs) = some xs := by
  cases xs with
  | nil => rfl
  | cons s xs =>
    obtain ⟨tail, htail⟩ := dumps_items_head s xs
    have hdata : (json_dumps_list (s :: xs)).data =
        '[' :: (dumps_items (s :: xs) ++ [']']) := rfl
    have harr : parse_array_items ((dumps_items (s :: xs) ++ [']']).length + 1)
        (dumps_items (s :: xs) ++ [']']) = some (s :: xs, []) := by
      rw [show dumps_items (s :: xs) ++ ([']'] : List Char) =
        dumps_items (s :: xs) ++ ']' :: [] from rfl]
      apply parse_array_items_round (s :: xs) _ [] (List.cons_ne_nil s xs)
      have := dumps_items_length_le (s :: xs)
      simp only [List.length_append, List.length_cons] at this ⊢
      omega
    have hskip : skip_ws (dumps_items (s :: xs) ++ [']']) =
        dumps_items (s :: xs) ++ [']'] := by
      rw [htail, List.cons_append]
      exact skip_ws_cons_false (show json_ws '"' = false from rfl)
    have hhead : ∃ tl, dumps_items (s :: xs) ++ ([']'] : List Char) = '"' :: tl :=
      ⟨tail ++ [']'], by rw [htail, List.cons_append]⟩
    obtain ⟨tl, htl⟩ := hhead
    simp only [parse_json_string_list, hdata,
      skip_ws_cons_false (show json_ws '[' = false from rfl)]
    simp only [if_true]
    rw [hskip, htl]
    dsimp only
    rw [if_neg (show ¬ ('"' = ']') by decide)]
    rw [← htl, harr]
    rfl

theorem parse_remove_list_round (xs : List String) :
    parse_remove_list (json_dumps_list xs) = xs := by
  rw [parse_remove_list, parse_json_string_list_round]

/-! ### CSV text round trip -/

theorem csv_run_inField_step {c : Char} (h1 : c ≠ '\r') (h2 : c ≠ '\n')
    (h3 : c ≠ ',') (field : List Char) (rec : List String)
    (out : List (List String)) (cs : List Char) :
    csv_run CsvState.inField field rec out (c :: cs) =
      csv_run CsvState.inField (field ++ [c]) rec out cs := by
  rw [csv_run.eq_def]
  dsimp only
  rw [if_neg h1, if_neg h2, if_neg h3]

theorem csv_run_inField_plain :
    ∀ (cs : List Char),
      (∀ c ∈ cs, c ≠ ',' ∧ c ≠ '"' ∧ c ≠ '\r' ∧ c ≠ '\n') →
      ∀ (field : List Char) (rec : List String) (out : List (List String))
        (δ : List Char),
        csv_run CsvState.inField field rec out (cs ++ δ) =
          csv_run CsvState.inField (field ++ cs) rec out δ := by
  intro cs
  induction cs with
  | nil => intro _ field rec out δ; simp
  | cons c cs ih =>
    intro h field rec out δ
    obtain ⟨hc1, hc2, hc3, hc4⟩ := h c (List.mem_cons_self c cs)
    rw [List.cons_append, csv_run_inField_step hc3 hc4 hc1,
      ih (fun d hd => h d (List.mem_cons_of_mem c hd))]
    simp

theorem csv_run_inQuoted_quote (field : List Char) (rec : List String)
    (out : List (List String)) (cs : List Char) :
    csv_run CsvState.inQuoted field rec out ('"' :: '"' :: cs) =
      csv_run CsvState.inQuoted (field ++ ['"']) rec out cs := by
  rw [csv_run.eq_def]
  dsimp only
  rw [if_pos rfl, csv_run.eq_def]
  dsimp only
  rw [if_pos rfl]

theorem csv_run_inQuoted_step {c : Char} (h : c ≠ '"') (field : List Char)
    (rec : List String) (out : List (List String)) (cs : List Char) :
    csv_run CsvState.inQuoted field rec out (c :: cs) =
      csv_run CsvState.inQuoted (field ++ [c]) rec out cs := by
  rw [csv_run.eq_def]
  dsimp only
  rw [if_neg h]

theorem csv_run_inQuoted_escape :
    ∀ (cs : List Char) (field : List Char) (rec : List String)
      (out : List (List String)) (δ : List Char),
      csv_run CsvState.inQuoted field rec out (csv_escape_quotes cs ++ δ) =
        csv_run CsvState.inQuoted (field ++ cs) rec out δ := by
  intro cs
  induction cs with
  | nil => intro field rec out δ; simp [csv_escape_quotes]
  | cons c cs ih =>
    intro field rec out δ
    by_cases hc : c = '"'
    · subst hc
      rw [show csv_escape_quotes ('"' :: cs) = '"' :: '"' :: csv_escape_quotes cs from by
        simp [csv_escape_quotes]]
      rw [List.cons_append, List.cons_append, csv_run_inQuoted_quote, ih]
      simp
    · rw [show csv_escape_quotes (c :: cs) = c :: csv_escape_quotes cs from by
        simp [csv_escape_quotes, hc]]
      rw [List.cons_append, csv_run_inQuoted_step hc, ih]
      simp

theorem csv_run_startField_comma (rec : List String)
    (out : List (List String)) (cs : List Char) :
    csv_run CsvState.startField [] rec out (',' :: cs) =
      csv_run CsvState.startField [] (rec ++ [""]) out cs := by
  rw [csv_run.eq_def]
  dsimp only
  rw [if_neg (by decide), if_neg (by decide), if_pos rfl]

theorem csv_run_startField_crlf (rec : List String)
    (out : List (List String)) (cs : List Char) :
    csv_run CsvState.startField [] rec out ('\r' :: '\n' :: cs) =
      csv_run CsvState.startRecord [] [] (out ++ [rec ++ [""]]) cs := by
  rw [csv_run.eq_def]
  dsimp only
  rw [if_pos rfl, csv_run.eq_def]
  dsimp only
  rw [if_pos rfl]

theorem csv_run_startField_quote (rec : List String)
    (out : List (List String)) (cs : List Char) :
    csv_run CsvState.startField [] rec out ('"' :: cs) =
      csv_run CsvState.inQuoted [] rec out cs := by
  rw [csv_run.eq_def]
  dsimp only
  rw [if_neg (by decide), if_neg (by decide), if_neg (by decide), if_pos rfl]

theorem csv_run_startField_plain {c : Char} (h1 : c ≠ '\r') (h2 : c ≠ '\n')
    (h3 : c ≠ ',') (h4 : c ≠ '"') (rec : List String)
    (out : List (List String)) (cs : List Char) :
    csv_run CsvState.startField [] rec out (c :: cs) =
      csv_run CsvState.inField [c] rec out cs := by
  rw [csv_run.eq_def]
  dsimp only
  rw [if_neg h1, if_neg h2, if_neg h3, if_neg h4]

theorem csv_run_inField_comma (field : List Char) (rec : List String)
    (out : List (List String)) (cs : List Char) :
    csv_run CsvState.inField field rec out (',' :: cs) =
      csv_run CsvState.startField [] (rec ++ [String.mk field]) out cs := by
  rw [csv_run.eq_def]
  dsimp only
  rw [if_neg (by decide), if_neg (by decide), if_pos rfl]

theorem csv_run_inField_crlf (field : List Char) (rec : List String)
    (out : List (List String)) (cs : List Char) :
    csv_run CsvState.inField field rec out ('\r' :: '\n' :: cs) =
      csv_run CsvState.startRecord [] [] (out ++ [rec ++ [String.mk field]]) cs := by
  rw [csv_run.eq_def]
  dsimp only
  rw [if_pos rfl, csv_run.eq_def]
  dsimp only
  rw [if_pos rfl]

theorem csv_run_quoteInQuoted_comma (field : List Char) (rec : List String)
    (out : List (List String)) (cs : List Char) :
    csv_run CsvState.quoteInQuoted field rec out (',' :: cs) =
      csv_run CsvState.startField [] (rec ++ [String.mk field]) out cs := by
  rw [csv_run.eq_def]
  dsimp only
  rw [if_neg (by decide), if_neg (by decide), if_neg (by decide), if_pos rfl]

theorem csv_run_quoteInQuoted_crlf (field : List Char) (rec : List String)
    (out : List (List String)) (cs : List Char) :
    csv_run CsvState.quoteInQuoted field rec out ('\r' :: '\n' :: cs) =
      csv_run CsvState.startRecord [] [] (out ++ [rec ++ [String.mk field]]) cs := by
  rw [csv_run.eq_def]
  dsimp only
  rw [if_neg (by decide), if_pos rfl, csv_run.eq_def]
  dsimp only
  rw [if_pos rfl]

theorem csv_run_inQuoted_close (field : List Char) (rec : List String)
    (out : List (List String)) (c : Char) (cs : List Char) (h : c ≠ '"') :
    csv_run CsvState.inQuoted field rec out ('"' :: c :: cs) =
      csv_run CsvState.quoteInQuoted field rec out (c :: cs) := by
  rw [csv_run.eq_def]
  dsimp only
  rw [if_pos rfl]

theorem csv_needs_quote_false_plain {s : String}
    (h : csv_needs_quote s.data = false) :
    ∀ c ∈ s.data, c ≠ ',' ∧ c ≠ '"' ∧ c ≠ '\r' ∧ c ≠ '\n' := by
  intro c hc
  rw [csv_needs_quote, List.any_eq_false] at h
  have := h c hc
  simp only [Bool.or_eq_true, decide_eq_true_eq, not_or] at this
  tauto

theorem csv_field_empty_iff {f : String} (h : csv_field f = []) : f = "" := by
  rw [csv_field] at h
  split at h
  · exact List.noConfusion h
  · cases f with
    | mk data =>
      cases data with
      | nil => rfl
      | cons c cs => exact List.noConfusion h

theorem csv_run_startField_field_comma (f : String) (rec : List String)
    (out : List (List String)) (δ : List Char) :
    csv_run CsvState.startField [] rec out (csv_field f ++ ',' :: δ) =
      csv_run CsvState.startField [] (rec ++ [f]) out δ := by
  rcases hq : csv_needs_quote f.data with _ | _
  · rw [csv_field, hq]
    simp only [Bool.false_eq_true, if_false]
    rcases hd : f.data with _ | ⟨c, cs⟩
    · have hf : f = "" := by
        cases f
        simp at hd
        rw [hd]
      rw [List.nil_append, csv_run_startField_comma, hf]
    · have hplain := csv_needs_quote_false_plain hq
      rw [hd] at hplain
      obtain ⟨hc1, hc2, hc3, hc4⟩ := hplain c (List.mem_cons_self c cs)
      rw [List.cons_append, csv_run_startField_plain hc3 hc4 hc1 hc2]
      have hstep := csv_run_inField_plain cs
        (fun d hdm => hplain d (List.mem_cons_of_mem c hdm)) [c] rec out (',' :: δ)
      rw [hstep, csv_run_inField_comma]
      have hmk : String.mk (([c] : List Char) ++ cs) = f := by
        rw [show ([c] : List Char) ++ cs = c :: cs from rfl, ← hd, string_mk_data]
      rw [hmk]
  · rw [csv_field, hq]
    simp only [if_true]
    simp only [List.cons_append, List.append_assoc, List.singleton_append]
    rw [csv_run_startField_quote, csv_run_inQuoted_escape]
    simp only [List.nil_append]
    rw [csv_run_inQuoted_close _ _ _ _ _ (by decide), csv_run_quoteInQuoted_comma,
      string_mk_data]

theorem csv_run_startField_field_crlf (f : String) (rec : List String)
    (out : List (List String)) (δ : List Char) :
    csv_run CsvState.startField [] rec out (csv_field f ++ '\r' :: '\n' :: δ) =
      csv_run CsvState.startRecord [] [] (out ++ [rec ++ [f]]) δ := by
  rcases hq : csv_needs_quote f.data with _ | _
  · rw [csv_field, hq]
    simp only [Bool.false_eq_true, if_false]
    rcases hd : f.data with _ | ⟨c, cs⟩
    · have hf : f = "" := by
        cases f
        simp at hd
        rw [hd]
      rw [List.nil_append, csv_run_startField_crlf, hf]
    · have hplain := csv_needs_quote_false_plain hq
      rw [hd] at hplain
      obtain ⟨hc1, hc2, hc3, hc4⟩ := hplain c (List.mem_cons_self c cs)
      rw [List.cons_append, csv_run_startField_plain hc3 hc4 hc1 hc2]
      have hstep := csv_run_inField_plain cs
        (fun d hdm => hplain d (List.mem_cons_of_mem c hdm)) [c] rec out
        ('\r' :: '\n' :: δ)
      rw [hstep, csv_run_inField_crlf]
      have hmk : String.mk (([c] : List Char) ++ cs) = f := by
        rw [show ([c] : List Char) ++ cs = c :: cs from rfl, ← hd, string_mk_data]
      rw [hmk]
  · rw [csv_field, hq]
    simp only [if_true]
    simp only [List.cons_append, List.append_assoc, List.singleton_append]
    rw [csv_run_startField_quote, csv_run_inQuoted_escape]
    simp only [List.nil_append]
    rw [csv_run_inQuoted_close _ _ _ _ _ (by decide), csv_run_quoteInQuoted_crlf,
      string_mk_data]

theorem csv_run_record_fields :
    ∀ (fs : List String) (f : String) (rec : List String)
      (out : List (List String)) (δ : List Char),
      csv_run CsvState.startField [] rec out
        (csv_fields_enc (f :: fs) ++ '\r' :: '\n' :: δ) =
        csv_run CsvState.startRecord [] [] (out ++ [rec ++ f :: fs]) δ := by
  intro fs
  induction fs with
  | nil =>
    intro f rec out δ
    show csv_run CsvState.startField [] rec out
      (csv_field f ++ '\r' :: '\n' :: δ) = _
    rw [csv_run_startField_field_crlf]
  | cons g fs ih =>
    intro f rec out δ
    show csv_run CsvState.startField [] rec out
      ((csv_field f ++ ',' :: csv_fields_enc (g :: fs)) ++ '\r' :: '\n' :: δ) = _
    simp only [List.append_assoc, List.cons_append]
    rw [csv_run_startField_field_comma, ih]
    simp

theorem csv_run_startRecord_shift {c : Char} (h1 : c ≠ '\r') (h2 : c ≠ '\n')
    (out : List (List String)) (cs : List Char) :
    csv_run CsvState.startRecord [] [] out (c :: cs) =
      csv_run CsvState.startField [] [] out (c :: cs) := by
  conv_lhs => rw [csv_run.eq_def]
  conv_rhs => rw [csv_run.eq_def]
  dsimp only
  by_cases h3 : c = ','
  · subst h3
    simp
  · by_cases h4 : c = '"'
    · subst h4
      simp
    · simp [h1, h2, h3, h4]

theorem csv_field_head_not_eol (f : String) {c : Char} {cs : List Char}
    (h : csv_field f = c :: cs) : c ≠ '\r' ∧ c ≠ '\n' := by
  rw [csv_field] at h
  split at h
  · injection h with h1 h2
    constructor
    · rw [← h1]; decide
    · rw [← h1]; decide
  · next hq =>
    have hq2 : csv_needs_quote f.data = false := by
      rcases hb : csv_needs_quote f.data with _ | _
      · rfl
      · exact absurd hb hq
    have hplain := csv_needs_quote_false_plain hq2
    have hmem := hplain c (by rw [h]; exact List.mem_cons_self c cs)
    exact ⟨hmem.2.2.1, hmem.2.2.2⟩

theorem csv_run_line_two (f g : String) (fs : List String)
    (out : List (List String)) (δ : List Char) :
    csv_run CsvState.startRecord [] [] out (csv_line (f :: g :: fs) ++ δ) =
      csv_run CsvState.startRecord [] [] (out ++ [f :: g :: fs]) δ := by
  have henc : csv_line (f :: g :: fs) ++ δ =
      csv_field f ++ ',' :: (csv_fields_enc (g :: fs) ++ '\r' :: '\n' :: δ) := by
    show (csv_fields_enc (f :: g :: fs) ++ ['\r', '\n']) ++ δ = _
    rw [show csv_fields_enc (f :: g :: fs) =
      csv_field f ++ ',' :: csv_fields_enc (g :: fs) from rfl]
    simp
  rw [henc]
  rcases hf : csv_field f with _ | ⟨c, cs⟩
  · have hf0 : f = "" := csv_field_empty_iff hf
    simp only [List.nil_append]
    rw [csv_run.eq_def]
    dsimp only
    rw [if_neg (by decide), if_neg (by decide), if_pos rfl]
    rw [csv_run_record_fields]
    rw [hf0]
    simp
  · obtain ⟨hc1, hc2⟩ := csv_field_head_not_eol f hf
    simp only [List.cons_append]
    rw [csv_run_startRecord_shift hc1 hc2]
    rw [show c :: (cs ++ ',' :: (csv_fields_enc (g :: fs) ++ '\r' :: '\n' :: δ)) =
      csv_field f ++ ',' :: (csv_fields_enc (g :: fs) ++ '\r' :: '\n' :: δ) from by
        rw [hf]; simp]
    rw [csv_run_startField_field_comma, csv_run_record_fields]
    simp

theorem csv_run_lines :
    ∀ (recs : List (List String)),
      (∀ r ∈ recs, ∃ f g fs, r = f :: g :: fs) →
      ∀ out, csv_run CsvState.startRecord [] [] out
        ((recs.map csv_line).join) = out ++ recs := by
  intro recs
  induction recs with
  | nil =>
    intro _ out
    show csv_run CsvState.startRecord [] [] out [] = out ++ []
    rw [csv_run.eq_def]
    simp
  | cons r recs ih =>
    intro h out
    obtain ⟨f, g, fs, hr⟩ := h r (List.mem_cons_self r recs)
    subst hr
    rw [show ((((f :: g :: fs) :: recs).map csv_line).join) =
      csv_line (f :: g :: fs) ++ (recs.map csv_line).join from rfl]
    rw [csv_run_line_two, ih (fun r hr => h r (List.mem_cons_of_mem _ hr))]
    simp

theorem csv_parse_write_csv (rows : List DuplicateRow) :
    csv_parse (write_csv rows) = csv_columns :: rows.map row_fields := by
  show csv_run CsvState.startRecord [] [] []
    (csv_line csv_columns ++ (rows.map (fun row => csv_line (row_fields row))).join) = _
  rw [show (csv_columns : List String) =
    "index" :: "file_to_keep" :: ["files_to_remove", "count"] from rfl]
  rw [csv_run_line_two]
  rw [show rows.map (fun row => csv_line (row_fields row)) =
    (rows.map row_fields).map csv_line from by rw [List.map_map]; rfl]
  rw [csv_run_lines (rows.map row_fields) (by
    intro r hr
    obtain ⟨x, _, hx⟩ := List.mem_map.mp hr
    exact ⟨py_str_int x.index, x.file_to_keep,
      [json_dumps_list x.files_to_remove, py_str_int x.count], by rw [← hx]; rfl⟩)]
  rfl

theorem read_csv_rows_write_csv (rows : List DuplicateRow) :
    read_csv_rows (write_csv rows) =
      rows.map (fun r => csv_columns.zip (row_fields r)) := by
  rw [read_csv_rows, csv_parse_write_csv]
  have hfilter : (rows.map row_fields).filter (fun r => !r.isEmpty) =
      rows.map row_fields := by
    apply List.filter_eq_self.mpr
    intro r hr
    obtain ⟨x, _, hx⟩ := List.mem_map.mp hr
    rw [← hx]
    rfl
  show (((rows.map row_fields).filter (fun r => !r.isEmpty)).map
    (fun r => csv_columns.zip r)) = _
  rw [hfilter, List.map_map]
  rfl

theorem preview_loop_cell (r : DuplicateRow) (ord : Int)
    (rest : List (List (String × String))) :
    preview_rows_loop ord (csv_columns.zip (row_fields r) :: rest) =
      preview_row_from_duplicate_row r :: preview_rows_loop (ord + 1) rest := by
  have h1 : row_get (csv_columns.zip (row_fields r)) "files_to_remove" "[]" =
      json_dumps_list r.files_to_remove := rfl
  have h2 : row_get (csv_columns.zip (row_fields r)) "index"
      (row_get (csv_columns.zip (row_fields r)) "#" "") = py_str_int r.index := rfl
  have h3 : row_get (csv_columns.zip (row_fields r)) "file_to_keep" "" =
      r.file_to_keep := rfl
  have h4 : row_get (csv_columns.zip (row_fields r)) "count" "" =
      py_str_int r.count := rfl
  rw [preview_rows_loop]
  simp only [h1, h2, h3, h4, parse_remove_list_round, parse_int_default_py_str_int]

theorem preview_loop_map (rows : List DuplicateRow) :
    ∀ ord, preview_rows_loop ord
      (rows.map (fun r => csv_columns.zip (row_fields r))) =
      rows.map preview_row_from_duplicate_row := by
  induction rows with
  | nil => intro ord; rfl
  | cons r rows ih =>
    intro ord
    rw [List.map_cons, preview_loop_cell, ih (ord + 1), List.map_cons]

/-- C10: writing any row list with `write_csv` and re-reading the file with
`build_preview_rows_from_csv` (with `top` at least the row count) returns one
preview per row, in order, preserving `index`, `file_to_keep` and `count`
(as `remove_count`), with `first_remove` the first removal path or `"-"`;
both `total_rows` and `shown_rows` equal the number of rows written. -/
theorem c10_csv_round_trip (rows : List DuplicateRow) (top : Int)
    (h : (rows.length : Int) ≤ top) :
    build_preview_rows_from_csv (write_csv rows) top =
      (rows.map preview_row_from_duplicate_row, rows.length, rows.length) := by
  rw [build_preview_rows_from_csv]
  rw [read_csv_rows_write_csv]
  have htake : (rows.map (fun r => csv_columns.zip (row_fields r))).take
      (max 0 top).toNat = rows.map (fun r => csv_columns.zip (row_fields r)) := by
    apply List.take_of_length_le
    simp only [List.length_map]
    omega
  rw [htake, preview_loop_map]
  simp

/-- C10 witness: the round trip on a concrete one-row list with `top = 5`. -/
theorem c10_csv_round_trip_witness :
    build_preview_rows_from_csv (write_csv [sample_row_ab]) 5 =
      ([sample_row_ab].map preview_row_from_duplicate_row, 1, 1) :=
  c10_csv_round_trip [sample_row_ab] 5 (by decide)
